import Mathlib

/-!
Verification of the usernaut Group reconciler and user-offboarding job.

The definitions below are a shallow embedding of the Go source:
  internal/controller/group_controller.go
  internal/controller/periodicjobs/job_usernaut_offboarding.go

The cache/store layer (Go package pkg/store, not part of the sources at
hand) is modelled from the specification, section 4.2 "Store Layer":
prefixed, JSON-typed views over a key-value cache.  The store is
represented as four association lists, cache misses read as empty
containers, as the specification prescribes.  The cache mutex and the
Kubernetes API machinery (finalizers, owner references, status
persistence) are external effects and are not modelled; the status the
reconciler persists is returned as a record.
-/

set_option maxHeartbeats 1000000

namespace Usernaut

/-! ### Association-list primitives

The Go code keeps `map[string]string` and friends; we model maps as
association lists with first-match lookup and in-place update. -/

/-- Lookup in an association list, first match wins. -/
def getEntry {β : Type} (m : List (String × β)) (k : String) : Option β :=
  match m with
  | [] => none
  | (k', v) :: rest => if k' = k then some v else getEntry rest k

/-- Map update: replace the first binding of `k`, or append one. -/
def setEntry {β : Type} (m : List (String × β)) (k : String) (v : β) :
    List (String × β) :=
  match m with
  | [] => [(k, v)]
  | (k', v') :: rest =>
    if k' = k then (k, v) :: rest else (k', v') :: setEntry rest k v

/-- Map deletion: remove every binding of `k`. -/
def removeEntry {β : Type} (m : List (String × β)) (k : String) :
    List (String × β) :=
  m.filter (fun p => p.1 ≠ k)

theorem getEntry_setEntry_same {β : Type} (m : List (String × β)) (k : String) (v : β) :
    getEntry (setEntry m k v) k = some v := by
  induction m with
  | nil => simp [setEntry, getEntry]
  | cons p rest ih =>
    by_cases h : p.1 = k
    · simp [setEntry, getEntry, h]
    · simp [setEntry, getEntry, h, ih]

theorem getEntry_setEntry_other {β : Type} (m : List (String × β)) (k k' : String)
    (v : β) (hne : k ≠ k') : getEntry (setEntry m k v) k' = getEntry m k' := by
  induction m with
  | nil => simp [setEntry, getEntry, hne]
  | cons p rest ih =>
    by_cases h : p.1 = k
    · simp [setEntry, getEntry, h, hne]
    · simp [setEntry, getEntry, h, ih]

/-! ### Data model (section 3 of the specification)

`Backend`, `GroupParam` and the `Group` spec fields mirror the CRD types
in api/v1alpha1 (declared externally; the fields below are exactly the
ones the reconciler reads). -/

structure Backend where
  name : String
  type : String
deriving DecidableEq, Repr

structure GroupParam where
  backend : String
  name : String
  property : String
  value : List String
deriving DecidableEq, Repr

structure TeamParams where
  property : String
  value : List String
deriving DecidableEq, Repr

structure BackendParams where
  name : String
  type : String
  groupParams : TeamParams
deriving DecidableEq, Repr

structure Team where
  name : String
  description : String
  role : String
  teamParams : TeamParams
deriving DecidableEq, Repr

structure User where
  email : String
  userName : String
  role : String
  firstName : String
  lastName : String
deriving DecidableEq, Repr

/-- Modelled from the spec: `structs.LDAPUser` (pkg/common/structs, not in
the sources at hand); carries the LDAP attributes the reconciler reads via
`GetUID`, `GetEmail`, `GetDisplayName`, `GetSN`. -/
structure LDAPUser where
  uid : String
  email : String
  displayName : String
  sn : String
deriving DecidableEq, Repr

/-- One Group custom resource: spec fields read by the reconciler. -/
structure GroupSpec where
  groupName : String
  users : List String
  groups : List String
  backends : List Backend
  groupParams : List GroupParam
deriving DecidableEq, Repr

/-- Modelled from the spec: constant `fivetran.AccountReviewerRole`
(pkg/clients/fivetran, not in the sources at hand); an opaque role string. -/
def AccountReviewerRole : String := "Account Reviewer"

/-! ### Store layer state

Modelled from the spec: pkg/store (not in the sources at hand), section
4.2.  Four prefixed views over the cache:
  user:<email>                 -> map bk -> backend user id
  team:<transformed-name>      -> map bk -> backend team id   (preload)
  group:<logical-name>         -> members list + map bk -> team id
  user:groups:<email>          -> list of group names
Cache misses are read as empty containers. -/

structure CacheState where
  userBackends : List (String × List (String × String))
  teamBackends : List (String × List (String × String))
  groupMembers : List (String × List String)
  groupBackends : List (String × List (String × String))
  userGroups : List (String × List String)
deriving DecidableEq, Repr

/-- Modelled from the spec: `User.GetBackends(email)`; miss reads as empty map. -/
def getUserBackends (st : CacheState) (email : String) : List (String × String) :=
  (getEntry st.userBackends email).getD []

/-- Modelled from the spec: `User.SetBackend(email, bk, id)`. -/
def setUserBackend (st : CacheState) (email bk id : String) : CacheState :=
  { st with userBackends :=
      setEntry st.userBackends email (setEntry (getUserBackends st email) bk id) }

/-- Modelled from the spec: `User.Delete(email)`. -/
def deleteUserEntry (st : CacheState) (email : String) : CacheState :=
  { st with userBackends := removeEntry st.userBackends email }

/-- Modelled from the spec: `Team.GetBackends(name)`; miss reads as empty map. -/
def getTeamBackends (st : CacheState) (name : String) : List (String × String) :=
  (getEntry st.teamBackends name).getD []

/-- Modelled from the spec: `Group.GetMembers(G)`; miss reads as empty list. -/
def getGroupMembers (st : CacheState) (groupName : String) : List String :=
  (getEntry st.groupMembers groupName).getD []

/-- Modelled from the spec: `Group.SetMembers(G, members)`. -/
def setGroupMembers (st : CacheState) (groupName : String) (members : List String) :
    CacheState :=
  { st with groupMembers := setEntry st.groupMembers groupName members }

/-- Modelled from the spec: `Group.GetBackendID(G, name, type)`; the Go
store returns the empty string when the backend key is absent. -/
def getGroupBackendID (st : CacheState) (groupName bk : String) : String :=
  (getEntry ((getEntry st.groupBackends groupName).getD []) bk).getD ""

/-- Modelled from the spec: `Group.SetBackend(G, name, type, id)`. -/
def setGroupBackend (st : CacheState) (groupName bk id : String) : CacheState :=
  let inner := setEntry ((getEntry st.groupBackends groupName).getD []) bk id
  { st with groupBackends := setEntry st.groupBackends groupName inner }

/-- Modelled from the spec: `UserGroups.GetGroups(email)`; miss reads as empty list. -/
def getUserGroupsOf (st : CacheState) (email : String) : List String :=
  (getEntry st.userGroups email).getD []

/-- Modelled from the spec: `UserGroups.AddGroup(email, G)` — idempotent add. -/
def addUserGroup (st : CacheState) (email groupName : String) : CacheState :=
  if groupName ∈ getUserGroupsOf st email then st
  else { st with userGroups :=
          setEntry st.userGroups email (getUserGroupsOf st email ++ [groupName]) }

/-- Modelled from the spec: `UserGroups.RemoveGroup(email, G)` — idempotent
removal; deletes the entry when the remaining list is empty. -/
def removeUserGroup (st : CacheState) (email groupName : String) : CacheState :=
  let remaining := (getUserGroupsOf st email).filter (fun g => g ≠ groupName)
  if remaining.isEmpty then { st with userGroups := removeEntry st.userGroups email }
  else { st with userGroups := setEntry st.userGroups email remaining }

/-! ### Name transformer

Modelled from the spec: `utils.GetTransformedGroupName` (pkg/utils, not in
the sources at hand), section 4.5: per-backend-type ordered regex rules,
first match wins, `NoMatch` on failure.  The reconciler consumes only the
match/no-match outcome and the produced name, so the transformer is
modelled as a function from backend type and logical group name to an
optional transformed name. -/
def Transformer : Type := String → String → Option String

/-- `isGroupConfigurable` (group_controller.go): false when the group
declares no backends; otherwise true iff at least one declared backend
type has a pattern matching the group name. -/
def isGroupConfigurable (transform : Transformer) (groupCR : GroupSpec) : Bool :=
  if groupCR.backends.isEmpty then false
  else groupCR.backends.any (fun b => (transform b.type groupCR.groupName).isSome)

/-! ### Recursive member expansion (`fetchUniqueGroupMembers`)

The group graph is the set of Group resources in the namespace, looked up
by name (the controller does a client `Get` per name); we model it as an
association list from group name to spec.  `visitedOnPath` is the current
recursion path only: the Go code inserts the name on entry and deletes it
on return (`defer delete`), so sibling branches see the same path. -/

/-- Number of graph entries whose group name is not yet on the path; the
termination measure of the depth-first walk. -/
def unvisitedCount (env : List (String × GroupSpec)) (visited : List String) : Nat :=
  (env.filter (fun p => decide (p.1 ∉ visited))).length

theorem length_filter_mono {α : Type} (p q : α → Bool) (l : List α)
    (h : ∀ a, p a = true → q a = true) :
    (l.filter p).length ≤ (l.filter q).length := by
  induction l with
  | nil => simp
  | cons a t ih =>
    simp only [List.filter_cons]
    cases hp : p a with
    | true =>
      rw [h a hp]
      simpa using ih
    | false =>
      cases hq : q a with
      | true => simp; omega
      | false => simpa using ih

theorem length_filter_lt {α : Type} (p q : α → Bool) (l : List α) (a : α)
    (h : ∀ x, p x = true → q x = true) (ha : a ∈ l)
    (hpa : p a = false) (hqa : q a = true) :
    (l.filter p).length < (l.filter q).length := by
  induction l with
  | nil => simp at ha
  | cons b t ih =>
    simp only [List.filter_cons]
    rcases List.mem_cons.mp ha with hba | hat
    · subst hba
      rw [hpa, hqa]
      simp
      exact Nat.lt_succ_of_le (length_filter_mono p q t h)
    · cases hp : p b with
      | true =>
        rw [h b hp]
        simpa using ih hat
      | false =>
        cases hq : q b with
        | true =>
          simp
          exact Nat.lt_succ_of_lt (ih hat)
        | false => simpa using ih hat

theorem getEntry_mem {β : Type} (m : List (String × β)) (k : String) (v : β)
    (h : getEntry m k = some v) : (k, v) ∈ m := by
  induction m with
  | nil => simp [getEntry] at h
  | cons p rest ih =>
    simp only [getEntry] at h
    by_cases hk : p.1 = k
    · subst hk
      obtain rfl : p.2 = v := by simpa using h
      simp
    · simp only [hk, if_neg, not_false_iff] at h
      exact List.mem_cons_of_mem _ (ih h)

theorem unvisitedCount_cons_lt (env : List (String × GroupSpec)) (g : String)
    (visited : List String) (hmem : getEntry env g ≠ none) (hnv : g ∉ visited) :
    unvisitedCount env (g :: visited) < unvisitedCount env visited := by
  obtain ⟨v, hv⟩ : ∃ v, getEntry env g = some v := by
    cases h : getEntry env g with
    | none => exact absurd h hmem
    | some v => exact ⟨v, rfl⟩
  apply length_filter_lt _ _ env (g, v)
  · intro x hx
    simp only [decide_eq_true_eq] at *
    intro hmemx
    exact hx (List.mem_cons_of_mem _ hmemx)
  · exact getEntry_mem env g v hv
  · simp
  · simpa using hnv

mutual

/-- `fetchUniqueGroupMembers` (group_controller.go): depth-first expansion
of `members.groups`.  A group already on the current path is a cycle and
contributes an empty member list; a missing group aborts with an error;
otherwise the result is the group's own `members.users` followed by the
members of each subgroup. -/
def fetchUniqueGroupMembers (env : List (String × GroupSpec)) (groupName : String)
    (visitedOnPath : List String) : Except String (List String) :=
  if hvis : groupName ∈ visitedOnPath then .ok []
  else
    match hlook : getEntry env groupName with
    | none => .error ("error fetching the group CR: " ++ groupName)
    | some spec =>
      match fetchSubGroups env spec.groups (groupName :: visitedOnPath) with
      | .error e => .error e
      | .ok subMembers => .ok (spec.users ++ subMembers)
termination_by (unvisitedCount env visitedOnPath, 0)
decreasing_by
  apply Prod.Lex.left
  exact unvisitedCount_cons_lt env groupName visitedOnPath (by simp [hlook]) hvis

/-- The loop over `groupCR.Spec.Members.Groups` inside
`fetchUniqueGroupMembers`, appending each subgroup's members in order. -/
def fetchSubGroups (env : List (String × GroupSpec)) (subs : List String)
    (visited : List String) : Except String (List String) :=
  match subs with
  | [] => .ok []
  | g :: rest =>
    match fetchUniqueGroupMembers env g visited with
    | .error e => .error e
    | .ok ms =>
      match fetchSubGroups env rest visited with
      | .error e => .error e
      | .ok others => .ok (ms ++ others)
termination_by (unvisitedCount env visited, subs.length + 1)
decreasing_by
  · apply Prod.Lex.right
    simp only [List.length_cons]
    omega
  · apply Prod.Lex.right
    simp only [List.length_cons]
    omega

end

/-- `deduplicateMembers` (group_controller.go): keep the first occurrence
of each member, preserving order. -/
def deduplicateMembers (members : List String) : List String :=
  (members.foldl
    (fun acc m => if m ∈ acc then acc else acc ++ [m]) [])

/-! ### LDAP fetch -/

/-- A per-reconcile LDAP oracle: `GetUserLDAPData(username)`; `none`
covers the lookup-error branch, which skips the user. -/
def LdapOracle : Type := String → Option LDAPUser

structure LDAPFetchResult where
  currentMembers : List String
  activeUserList : List String
deriving DecidableEq, Repr

/-- The loop body of `fetchLDAPData`: accumulates `allLdapUserData`, the
set of unique UIDs, and `currentMembers` (emails of resolved users).  On a
lookup failure the Go code deletes the failing username from the UID set
and continues. -/
def fetchLDAPDataGo (ldap : LdapOracle) (users : List String)
    (data : List (String × LDAPUser)) (uids : List String) (cur : List String) :
    List (String × LDAPUser) × List String × List String :=
  match users with
  | [] => (data, uids, cur)
  | u :: rest =>
    match ldap u with
    | none => fetchLDAPDataGo ldap rest data (uids.filter (fun x => x ≠ u)) cur
    | some ud =>
      let data' := setEntry data u ud
      let uids' := if ud.uid ∈ uids then uids else uids ++ [ud.uid]
      fetchLDAPDataGo ldap rest data' uids' (cur ++ [ud.email])

/-- `fetchLDAPData` (group_controller.go): resolves every unique member in
LDAP, returning the scratchpad `allLdapUserData` and the fetch result. -/
def fetchLDAPData (ldap : LdapOracle) (uniqueMembers : List String) :
    List (String × LDAPUser) × LDAPFetchResult :=
  let (data, uids, cur) := fetchLDAPDataGo ldap uniqueMembers [] [] []
  (data, { currentMembers := cur, activeUserList := uids })

/-! ### Reverse-index update -/

/-- `updateCacheIndexes` (group_controller.go): adds the group to each
current member's reverse index, removes it from each previous member no
longer current, and sets the group's member list to the current members.
Store sub-step failures are logged and do not fail the update; in the
pure store model the operations are total. -/
def updateCacheIndexes (st : CacheState) (groupName : String)
    (currentMembers : List String) : CacheState :=
  setGroupMembers
    ((getGroupMembers st groupName).foldl
      (fun s email =>
        if email ∈ currentMembers then s else removeUserGroup s email groupName)
      (currentMembers.foldl (fun s email => addUserGroup s email groupName) st))
    groupName currentMembers

/-! ### Backend environment

Each backend adapter is an external service; one reconcile's interaction
with it is modelled as an oracle keyed by the backend key `name_type`.
`setupLdapSync` only reads configuration and the store (it performs no
store writes in the source), so it is an oracle over the state. -/

/-- A record of one call made to a backend adapter during a reconcile. -/
inductive Call where
  | createTeam (bk : String) (team : Team)
  | createUser (bk : String) (user : User)
  | fetchTeamMembers (bk : String) (teamID : String)
  | addUserToTeam (bk : String) (teamID : String) (userIDs : List String)
  | removeUserFromTeam (bk : String) (teamID : String) (userIDs : List String)
  | deleteUser (bk : String) (userID : String)
deriving DecidableEq, Repr

structure BackendEnv where
  /-- `clients.New`: adapter construction may fail. -/
  newClient : Except String Unit
  /-- `setupLdapSync`: reads config and store, returns the LDAP-sync flag. -/
  ldapSync : CacheState → Except String Bool
  /-- `CreateTeam`: returns the new backend team id. -/
  createTeam : Team → Except String String
  /-- `CreateUser`: returns the new backend user id. -/
  createUser : User → Except String String
  /-- `FetchTeamMembersByTeamID`: returns the member ids (map keys). -/
  fetchTeamMembers : String → Except String (List String)
  addUserToTeam : String → List String → Except String Unit
  removeUserFromTeam : String → List String → Except String Unit

/-- `fetchOrCreateTeam` (group_controller.go): resolve the backend team id
for (group, backend).  Group store first; then the Team preload store
under the transformed name, promoting a hit into the Group store; else
`CreateTeam` with the transformed name and record the new id in the Group
store only. -/
def fetchOrCreateTeam (transform : Transformer) (env : BackendEnv)
    (groupName : String) (backendParams : BackendParams) (st : CacheState)
    (calls : List Call) : Except String String × CacheState × List Call :=
  match transform backendParams.type groupName with
  | none => (.error ("error transforming the group Name: " ++ groupName), st, calls)
  | some transformedGroupName =>
    let backendKey := backendParams.name ++ "_" ++ backendParams.type
    let teamID := getGroupBackendID st groupName backendKey
    if teamID ≠ "" then (.ok teamID, st, calls)
    else
      let teamBackends := getTeamBackends st transformedGroupName
      match getEntry teamBackends backendKey with
      | some id =>
        if id ≠ "" then (.ok id, setGroupBackend st groupName backendKey id, calls)
        else
          let team : Team := { name := transformedGroupName,
                               description := "team for " ++ groupName,
                               role := AccountReviewerRole,
                               teamParams := backendParams.groupParams }
          let calls' := calls ++ [Call.createTeam backendKey team]
          match env.createTeam team with
          | .error e => (.error e, st, calls')
          | .ok newID =>
            (.ok newID, setGroupBackend st groupName backendKey newID, calls')
      | none =>
        let team : Team := { name := transformedGroupName,
                             description := "team for " ++ groupName,
                             role := AccountReviewerRole,
                             teamParams := backendParams.groupParams }
        let calls' := calls ++ [Call.createTeam backendKey team]
        match env.createTeam team with
        | .error e => (.error e, st, calls')
        | .ok newID =>
          (.ok newID, setGroupBackend st groupName backendKey newID, calls')

/-- `createUsersInBackendAndCache` (group_controller.go): for each member
resolved in LDAP and lacking a cached id for this backend, `CreateUser`
and record the new id in the User store. -/
def createUsersInBackendAndCache (ldapData : List (String × LDAPUser))
    (env : BackendEnv) (users : List String) (backendName backendType : String)
    (st : CacheState) (calls : List Call) :
    Except String Unit × CacheState × List Call :=
  match users with
  | [] => (.ok (), st, calls)
  | u :: rest =>
    match getEntry ldapData u with
    | none => createUsersInBackendAndCache ldapData env rest backendName backendType st calls
    | some ud =>
      if (getEntry (getUserBackends st ud.email) (backendName ++ "_" ++ backendType)).getD "" ≠ "" then
        createUsersInBackendAndCache ldapData env rest backendName backendType st calls
      else
        let newUser : User := { email := ud.email, userName := u,
                                role := AccountReviewerRole,
                                firstName := ud.displayName, lastName := ud.sn }
        match env.createUser newUser with
        | .error e => (.error e, st,
            calls ++ [Call.createUser (backendName ++ "_" ++ backendType) newUser])
        | .ok newID =>
          createUsersInBackendAndCache ldapData env rest backendName backendType
            (setUserBackend st ud.email (backendName ++ "_" ++ backendType) newID)
            (calls ++ [Call.createUser (backendName ++ "_" ++ backendType) newUser])

/-- The first loop of `processUsers` (group_controller.go): walks the
group members, building `userIDsToSync` (the cached backend id of every
LDAP-resolved member; an empty cached id aborts with an error) and the
unresolved members that already appear among the existing team members
(those are queued for removal). -/
def processUsersLoop (ldapData : List (String × LDAPUser)) (st : CacheState)
    (groupUsers : List String) (existingTeamMembers : List String)
    (backendKey : String) : Except String (List String × List String) :=
  match groupUsers with
  | [] => .ok ([], [])
  | u :: rest =>
    match getEntry ldapData u with
    | none =>
      match processUsersLoop ldapData st rest existingTeamMembers backendKey with
      | .error e => .error e
      | .ok (ids, toRemove) =>
        if u ∈ existingTeamMembers then .ok (ids, u :: toRemove)
        else .ok (ids, toRemove)
    | some ud =>
      let userBackends := getUserBackends st ud.email
      let userID := (getEntry userBackends backendKey).getD ""
      if userID = "" then .error "user ID not found in cache"
      else
        match processUsersLoop ldapData st rest existingTeamMembers backendKey with
        | .error e => .error e
        | .ok (ids, toRemove) => .ok (userID :: ids, toRemove)

/-- `processUsers` (group_controller.go): computes the membership delta
for one backend.  `existingTeamMembers` is the key set of the map returned
by `FetchTeamMembersByTeamID` (backend member ids). -/
def processUsers (ldapData : List (String × LDAPUser)) (st : CacheState)
    (groupUsers : List String) (existingTeamMembers : List String)
    (backendName backendType : String) :
    Except String (List String × List String) :=
  let backendKey := backendName ++ "_" ++ backendType
  match processUsersLoop ldapData st groupUsers existingTeamMembers backendKey with
  | .error e => .error e
  | .ok (userIDsToSync, removeUnresolved) =>
    let removeExisting :=
      existingTeamMembers.filter (fun m => decide (m ∉ userIDsToSync))
    let usersToAdd :=
      userIDsToSync.filter (fun id => decide (id ∉ existingTeamMembers))
    .ok (usersToAdd, removeUnresolved ++ removeExisting)

/-- `processSingleBackend` (group_controller.go): client construction,
LDAP-sync setup, fetch-or-create team, create-if-missing users, fetch
existing members, compute the delta, and (outside LDAP-sync mode) apply
the additions and removals. -/
def processSingleBackend (transform : Transformer) (env : BackendEnv)
    (ldapData : List (String × LDAPUser)) (groupCR : GroupSpec)
    (backend : Backend) (uniqueMembers : List String)
    (backendGroupParams : TeamParams) (st : CacheState) (calls : List Call) :
    Except String Unit × CacheState × List Call :=
  let backendKey := backend.name ++ "_" ++ backend.type
  match env.newClient with
  | .error e => (.error e, st, calls)
  | .ok _ =>
  match env.ldapSync st with
  | .error e => (.error e, st, calls)
  | .ok isLdapSync =>
  let backendParams : BackendParams :=
    { name := backend.name, type := backend.type, groupParams := backendGroupParams }
  match fetchOrCreateTeam transform env groupCR.groupName backendParams st calls with
  | (.error e, st1, c1) => (.error e, st1, c1)
  | (.ok teamID, st1, c1) =>
  match createUsersInBackendAndCache ldapData env uniqueMembers backend.name
      backend.type st1 c1 with
  | (.error e, st2, c2) => (.error e, st2, c2)
  | (.ok _, st2, c2) =>
  let c3 := c2 ++ [Call.fetchTeamMembers backendKey teamID]
  match env.fetchTeamMembers teamID with
  | .error e => (.error e, st2, c3)
  | .ok members =>
  match processUsers ldapData st2 uniqueMembers members backend.name backend.type with
  | .error e => (.error e, st2, c3)
  | .ok (usersToAdd, usersToRemove) =>
  if isLdapSync then (.ok (), st2, c3)
  else
    if usersToAdd.isEmpty then
      if usersToRemove.isEmpty then (.ok (), st2, c3)
      else
        let c4 := c3 ++ [Call.removeUserFromTeam backendKey teamID usersToRemove]
        match env.removeUserFromTeam teamID usersToRemove with
        | .error e => (.error e, st2, c4)
        | .ok _ => (.ok (), st2, c4)
    else
      let c4 := c3 ++ [Call.addUserToTeam backendKey teamID usersToAdd]
      match env.addUserToTeam teamID usersToAdd with
      | .error e => (.error e, st2, c4)
      | .ok _ =>
        if usersToRemove.isEmpty then (.ok (), st2, c4)
        else
          let c5 := c4 ++ [Call.removeUserFromTeam backendKey teamID usersToRemove]
          match env.removeUserFromTeam teamID usersToRemove with
          | .error e => (.error e, st2, c5)
          | .ok _ => (.ok (), st2, c5)

/-! ### Backend error collection

`backendErrors` is `map[type]map[name]message`, modelled as a nested
association list. -/

/-- Record one backend error under its type and name, creating the inner
map when needed (the `if _, ok := backendErrors[t]; !ok` idiom). -/
def addBackendError (errs : List (String × List (String × String)))
    (btype bname msg : String) : List (String × List (String × String)) :=
  setEntry errs btype (setEntry ((getEntry errs btype).getD []) bname msg)

/-- The `hasErrors` scan in `Reconcile` and `updateStatusAndHandleErrors`:
some backend type has a non-empty error map. -/
def anyErrors (errs : List (String × List (String × String))) : Bool :=
  errs.any (fun p => !p.2.isEmpty)

/-- The group-params loop of `processAllBackends` (group_controller.go):
validates each `group_param` against the declared backends, records
invalid ones as backend errors without attempting the backend, and groups
the valid ones by backend key. -/
def collectGroupParams (groupCR : GroupSpec) :
    List (String × List (String × String)) × List (String × TeamParams) :=
  let validBackends := groupCR.backends.map (fun b => b.name ++ "_" ++ b.type)
  groupCR.groupParams.foldl
    (fun acc param =>
      let (errs, paramsBy) := acc
      let backendKey := param.name ++ "_" ++ param.backend
      if backendKey ∉ validBackends then
        (addBackendError errs param.backend param.name
          ("group param refers to non-existent backend: " ++ param.backend ++ "/" ++ param.name),
         paramsBy)
      else if param.property = "" then
        (addBackendError errs param.backend param.name
          ("group param property is empty for backend: " ++ param.backend ++ "/" ++ param.name),
         paramsBy)
      else
        (errs, setEntry paramsBy backendKey
          { property := param.property, value := param.value }))
    ([], [])

/-- The backend loop of `processAllBackends`: process each declared
backend in spec order, collecting failures into `backendErrors`. -/
def processBackendsLoop (transform : Transformer) (benv : String → BackendEnv)
    (ldapData : List (String × LDAPUser)) (groupCR : GroupSpec)
    (uniqueMembers : List String) (paramsBy : List (String × TeamParams))
    (backends : List Backend) (errs : List (String × List (String × String)))
    (st : CacheState) (calls : List Call) :
    List (String × List (String × String)) × CacheState × List Call :=
  match backends with
  | [] => (errs, st, calls)
  | backend :: rest =>
    match processSingleBackend transform (benv (backend.name ++ "_" ++ backend.type))
        ldapData groupCR backend uniqueMembers
        ((getEntry paramsBy (backend.name ++ "_" ++ backend.type)).getD
          { property := "", value := [] }) st calls with
    | (.ok _, st', calls') =>
      processBackendsLoop transform benv ldapData groupCR uniqueMembers paramsBy
        rest errs st' calls'
    | (.error e, st', calls') =>
      processBackendsLoop transform benv ldapData groupCR uniqueMembers paramsBy
        rest (addBackendError errs backend.type backend.name e) st' calls'

/-- `processAllBackends` (group_controller.go). -/
def processAllBackends (transform : Transformer) (benv : String → BackendEnv)
    (ldapData : List (String × LDAPUser)) (groupCR : GroupSpec)
    (uniqueMembers : List String) (st : CacheState) :
    List (String × List (String × String)) × CacheState × List Call :=
  processBackendsLoop transform benv ldapData groupCR uniqueMembers
    (collectGroupParams groupCR).2 groupCR.backends (collectGroupParams groupCR).1 st []

/-! ### Status handling -/

structure BackendStatus where
  name : String
  type : String
  status : Bool
  message : String
deriving DecidableEq, Repr

/-- The per-backend status built by `updateStatusAndHandleErrors`. -/
def backendStatusOf (errs : List (String × List (String × String)))
    (b : Backend) : BackendStatus :=
  match getEntry errs b.type with
  | some typeMap =>
    match getEntry typeMap b.name with
    | some msg => { name := b.name, type := b.type, status := false, message := msg }
    | none => { name := b.name, type := b.type, status := true, message := "Successful" }
  | none => { name := b.name, type := b.type, status := true, message := "Successful" }

/-- `updateStatusAndHandleErrors` (group_controller.go): builds
`backends_status`, sets Ready true iff no backend recorded an error
(`UpdateStatus(false)` then `UpdateStatus(true)` on errors, modelled from
the spec as setting the Ready condition), and returns an error to the
dispatcher iff some backend failed.  Persisting the status is an external
Kubernetes API write, modelled as infallible. -/
def updateStatusAndHandleErrors (backends : List Backend)
    (backendErrors : List (String × List (String × String))) :
    List BackendStatus × Bool × Except String Unit :=
  let backendStatus := backends.map (backendStatusOf backendErrors)
  let hasErrors := anyErrors backendErrors
  (backendStatus, !hasErrors,
    if hasErrors then .error "failed to reconcile all backends" else .ok ())

/-! ### The reconcile pipeline -/

/-- Everything one (non-deletion) reconcile produces: the final store
state, the persisted status fields, the collected backend errors, whether
the reverse-index update ran, the error returned to the dispatcher, and
the trace of backend calls.  The Kubernetes steps before the gate
(finalizer, owner references, Waiting status) do not touch the store and
are not modelled. -/
structure ReconcileOutcome where
  state : CacheState
  reconciledUsers : List String
  ready : Bool
  reason : String
  backendsStatus : List BackendStatus
  backendErrors : List (String × List (String × String))
  didIndexUpdate : Bool
  result : Except String Unit
  calls : List Call
deriving Repr

/-- `Reconcile` (group_controller.go), from the configurability gate on:
gate, recursive member expansion, LDAP fetch, per-backend processing,
all-or-nothing reverse-index update, status. -/
def reconcile (transform : Transformer) (env : List (String × GroupSpec))
    (ldap : LdapOracle) (benv : String → BackendEnv) (groupCR : GroupSpec)
    (st : CacheState) : ReconcileOutcome :=
  if !isGroupConfigurable transform groupCR then
    { state := st, reconciledUsers := [], ready := false,
      reason := "NonConfigurable", backendsStatus := [], backendErrors := [],
      didIndexUpdate := false, result := .ok (), calls := [] }
  else
    match fetchUniqueGroupMembers env groupCR.groupName [] with
    | .error e =>
      { state := st, reconciledUsers := [], ready := false, reason := "",
        backendsStatus := [], backendErrors := [], didIndexUpdate := false,
        result := .error e, calls := [] }
    | .ok allMembers =>
      { state :=
          if anyErrors (processAllBackends transform benv
              (fetchLDAPData ldap (deduplicateMembers allMembers)).1 groupCR
              (deduplicateMembers allMembers) st).1 then
            (processAllBackends transform benv
              (fetchLDAPData ldap (deduplicateMembers allMembers)).1 groupCR
              (deduplicateMembers allMembers) st).2.1
          else
            updateCacheIndexes
              (processAllBackends transform benv
                (fetchLDAPData ldap (deduplicateMembers allMembers)).1 groupCR
                (deduplicateMembers allMembers) st).2.1
              groupCR.groupName
              (fetchLDAPData ldap (deduplicateMembers allMembers)).2.currentMembers,
        reconciledUsers := deduplicateMembers allMembers,
        ready := (updateStatusAndHandleErrors groupCR.backends
          (processAllBackends transform benv
            (fetchLDAPData ldap (deduplicateMembers allMembers)).1 groupCR
            (deduplicateMembers allMembers) st).1).2.1,
        reason := "",
        backendsStatus := (updateStatusAndHandleErrors groupCR.backends
          (processAllBackends transform benv
            (fetchLDAPData ldap (deduplicateMembers allMembers)).1 groupCR
            (deduplicateMembers allMembers) st).1).1,
        backendErrors := (processAllBackends transform benv
          (fetchLDAPData ldap (deduplicateMembers allMembers)).1 groupCR
          (deduplicateMembers allMembers) st).1,
        didIndexUpdate := !anyErrors (processAllBackends transform benv
          (fetchLDAPData ldap (deduplicateMembers allMembers)).1 groupCR
          (deduplicateMembers allMembers) st).1,
        result := (updateStatusAndHandleErrors groupCR.backends
          (processAllBackends transform benv
            (fetchLDAPData ldap (deduplicateMembers allMembers)).1 groupCR
            (deduplicateMembers allMembers) st).1).2.2,
        calls := (processAllBackends transform benv
          (fetchLDAPData ldap (deduplicateMembers allMembers)).1 groupCR
          (deduplicateMembers allMembers) st).2.2 }

/-! ### The user offboarding job (job_usernaut_offboarding.go) -/

namespace Offboarding

/-- Result of `ldapClient.GetUserLDAPDataByEmail`: success with an
attribute map, the `ldap.ErrNoUserFound` sentinel, a typed LDAP error
carrying a result code (`goldap.Error`), or any other error. -/
inductive LdapEmailResult where
  | ok (attrs : List (String × String))
  | errNoUserFound
  | errLdapCode (code : Nat)
  | errOther (msg : String)
deriving DecidableEq, Repr

/-- `goldap.LDAPResultNoSuchObject`. -/
def LDAPResultNoSuchObject : Nat := 32

/-- Structural model of Go `strings.Split(s, "_")` on the character
list (the core `String.splitOn` is well-founded and does not evaluate in
proofs); same semantics on underscore separators. -/
def splitUnderscoreAux : List Char → List (List Char)
  | [] => [[]]
  | c :: rest =>
    match splitUnderscoreAux rest with
    | [] => [[]]
    | h :: t => if c = '_' then [] :: h :: t else (c :: h) :: t

/-- Go `strings.Split(backendKey, "_")`. -/
def splitUnderscore (s : String) : List String :=
  (splitUnderscoreAux s.data).map (fun l => { data := l })

/-- Go `strings.ToLower` (character-wise). -/
def lowerString (s : String) : String :=
  { data := s.data.map Char.toLower }

/-- The offboarding job's external world: the LDAP directory keyed by
email and each configured backend adapter's `DeleteUser`, keyed by
backend key then backend user id. -/
structure OffboardEnv where
  ldapByEmail : String → LdapEmailResult
  deleteUser : String → String → Except String Unit

/-- `isUserActiveInLDAP` (job_usernaut_offboarding.go): inactive on the
no-user-found sentinel, on an LDAP No Such Object error, or on an empty
attribute map; any other error propagates. -/
def isUserActiveInLDAP (env : OffboardEnv) (userEmail : String) :
    Except String Bool :=
  match env.ldapByEmail userEmail with
  | .errNoUserFound => .ok false
  | .errLdapCode code =>
    if code = LDAPResultNoSuchObject then .ok false
    else .error ("ldap result code " ++ toString code)
  | .errOther msg => .error msg
  | .ok attrs => if attrs.isEmpty then .ok false else .ok true

/-- `getUserDataFromCache` (job_usernaut_offboarding.go): pattern search
of the User store for keys containing `userKey`, returning the first
matching entry's backend map and email.  Go map iteration order is
unspecified; the model returns the first match in store order. -/
def getUserDataFromCache (st : CacheState) (userKey : String) :
    Except String (List (String × String) × String) :=
  match st.userBackends.find? (fun p => decide (List.IsInfix userKey.data p.1.data)) with
  | some p => .ok (p.2, p.1)
  | none => .error ("No user found with username: " ++ userKey)

/-- The backend loop of `offboardUserFromAllBackends`: walk the configured
backend clients; skip keys without an underscore, skip the gitlab and
rover backend types, skip backends absent from the user's cached mapping;
otherwise call `DeleteUser` with the cached id, collecting failures and
continuing. -/
def offboardLoop (env : OffboardEnv) (clients : List String)
    (userData : List (String × String)) (errs : List String)
    (calls : List Call) : List String × List Call :=
  match clients with
  | [] => (errs, calls)
  | backendKey :: rest =>
    let parts := splitUnderscore backendKey
    if parts.length < 2 then offboardLoop env rest userData errs calls
    else
      let backendType := lowerString (parts.getLastD "")
      if backendType = "gitlab" ∨ backendType = "rover" then
        offboardLoop env rest userData errs calls
      else
        match getEntry userData backendKey with
        | none => offboardLoop env rest userData errs calls
        | some userID =>
          let calls' := calls ++ [Call.deleteUser backendKey userID]
          match env.deleteUser backendKey userID with
          | .error e =>
            offboardLoop env rest userData
              (errs ++ ["backend " ++ backendKey ++ ": " ++ e]) calls'
          | .ok _ => offboardLoop env rest userData errs calls'

/-- `offboardUserFromAllBackends` (job_usernaut_offboarding.go). -/
def offboardUserFromAllBackends (env : OffboardEnv) (clients : List String)
    (userData : List (String × String)) : Except String Unit × List Call :=
  let (errs, calls) := offboardLoop env clients userData [] []
  if errs.isEmpty then (.ok (), calls)
  else (.error ("failed to remove user from some backends: " ++ String.intercalate ", " errs), calls)

/-- `offboardUser` (job_usernaut_offboarding.go): fetch the cached backend
mapping, offboard from the backends, and only if every backend deletion
succeeded delete the user's entry from the User store (done under the
exclusive cache mutex, which the pure model does not represent). -/
def offboardUser (env : OffboardEnv) (clients : List String) (st : CacheState)
    (userKey : String) : Except String Unit × CacheState × List Call :=
  match getUserDataFromCache st userKey with
  | .error e => (.error ("failed to get user data from cache: " ++ e), st, [])
  | .ok (userData, userEmail) =>
    match offboardUserFromAllBackends env clients userData with
    | (.error e, calls) =>
      (.error ("failed to offboard user " ++ userKey ++ " from backends: " ++ e), st, calls)
    | (.ok _, calls) => (.ok (), deleteUserEntry st userEmail, calls)

/-- `processUser` (job_usernaut_offboarding.go): check LDAP status and
offboard when inactive.  Returns whether the user was offboarded. -/
def processUser (env : OffboardEnv) (clients : List String) (st : CacheState)
    (userKey : String) : Except String Bool × CacheState × List Call :=
  match isUserActiveInLDAP env userKey with
  | .error e =>
    (.error ("failed to check LDAP for user " ++ userKey ++ ": " ++ e), st, [])
  | .ok true => (.ok false, st, [])
  | .ok false =>
    match offboardUser env clients st userKey with
    | (.error e, st', calls) => (.error e, st', calls)
    | (.ok _, st', calls) => (.ok true, st', calls)

/-- Aggregate result of `processUsers` (job_usernaut_offboarding.go). -/
structure ProcessingResult where
  offboardedCount : Nat
  offboardedUsers : List String
  errors : List String
deriving DecidableEq, Repr

/-- `processUsers` (job_usernaut_offboarding.go): process each user key,
collecting offboarded users and error messages. -/
def processUsersJob (env : OffboardEnv) (clients : List String)
    (userKeys : List String) (st : CacheState) : ProcessingResult × CacheState :=
  userKeys.foldl
    (fun acc userKey =>
      let (result, st0) := acc
      match processUser env clients st0 userKey with
      | (.error e, st', _) =>
        ({ result with errors := result.errors ++ [e] }, st')
      | (.ok true, st', _) =>
        ({ result with offboardedCount := result.offboardedCount + 1,
                       offboardedUsers := result.offboardedUsers ++ [userKey] }, st')
      | (.ok false, st', _) => (result, st'))
    ({ offboardedCount := 0, offboardedUsers := [], errors := [] }, st)

end Offboarding

/-! ### Helper lemmas and claim theorems -/

/-- The spec-side reading of "the collected backendErrors map contains no
error entries": every backend type in the map has an empty inner map. -/
def noErrorEntries (errs : List (String × List (String × String))) : Prop :=
  ∀ p ∈ errs, p.2 = []

theorem anyErrors_eq_false_iff (errs : List (String × List (String × String))) :
    anyErrors errs = false ↔ noErrorEntries errs := by
  unfold anyErrors noErrorEntries
  rw [List.any_eq_false]
  constructor
  · intro h p hp
    have := h p hp
    simpa using this
  · intro h p hp
    simp [h p hp]

/-- C9: `updateStatusAndHandleErrors` sets Ready to true and returns no
error exactly when the collected backendErrors map contains no error
entries; when a backend has an error entry, its backends_status entry
carries status=false with that message, Ready is false, and an error is
returned to the dispatcher.  (The kubernetes status write itself is an
external API call, modelled as infallible.) -/
theorem updateStatusAndHandleErrors_spec (backends : List Backend)
    (errs : List (String × List (String × String))) :
    (((updateStatusAndHandleErrors backends errs).2.1 = true ∧
      (updateStatusAndHandleErrors backends errs).2.2 = .ok ()) ↔ noErrorEntries errs) ∧
    (∀ b ∈ backends, ∀ typeMap msg, getEntry errs b.type = some typeMap →
      getEntry typeMap b.name = some msg →
      ({ name := b.name, type := b.type, status := false, message := msg } : BackendStatus) ∈
        (updateStatusAndHandleErrors backends errs).1) ∧
    (¬ noErrorEntries errs →
      (updateStatusAndHandleErrors backends errs).2.1 = false ∧
      (updateStatusAndHandleErrors backends errs).2.2 =
        .error "failed to reconcile all backends") := by
  refine ⟨?_, ?_, ?_⟩
  · unfold updateStatusAndHandleErrors
    cases herr : anyErrors errs with
    | false =>
      simp only [Bool.not_false]
      rw [← anyErrors_eq_false_iff]
      simp [herr]
    | true =>
      simp only [Bool.not_true]
      constructor
      · intro h
        exact absurd h.1 (by simp)
      · intro h
        rw [← anyErrors_eq_false_iff] at h
        rw [herr] at h
        exact absurd h (by simp)
  · intro b hb typeMap msg htm hmsg
    unfold updateStatusAndHandleErrors
    simp only []
    have : backendStatusOf errs b =
        { name := b.name, type := b.type, status := false, message := msg } := by
      simp [backendStatusOf, htm, hmsg]
    rw [← this]
    exact List.mem_map_of_mem _ hb
  · intro h
    have herr : anyErrors errs = true := by
      cases hh : anyErrors errs with
      | false => exact absurd ((anyErrors_eq_false_iff errs).mp hh) h
      | true => rfl
    unfold updateStatusAndHandleErrors
    simp [herr]

/-- C9 witness: a concrete run with one failing backend. -/
theorem updateStatusAndHandleErrors_spec_witness :
    (¬ noErrorEntries [("fivetran", [("ftB", "500 internal error")])]) ∧
    ((updateStatusAndHandleErrors
        [{ name := "ftA", type := "snowflake" }, { name := "ftB", type := "fivetran" }]
        [("fivetran", [("ftB", "500 internal error")])]).2.1 = false ∧
     (updateStatusAndHandleErrors
        [{ name := "ftA", type := "snowflake" }, { name := "ftB", type := "fivetran" }]
        [("fivetran", [("ftB", "500 internal error")])]).2.2 =
        .error "failed to reconcile all backends") :=
  ⟨by
     intro h
     have := h ("fivetran", [("ftB", "500 internal error")]) (by simp)
     simp at this,
   (updateStatusAndHandleErrors_spec
      [{ name := "ftA", type := "snowflake" }, { name := "ftB", type := "fivetran" }]
      [("fivetran", [("ftB", "500 internal error")])]).2.2
     (by
       intro h
       have := h ("fivetran", [("ftB", "500 internal error")]) (by simp)
       simp at this)⟩

/-- C4: when no declared backend has a name-transformer pattern matching
the group's logical name, the reconcile sets Ready=False with reason
NonConfigurable, clears reconciled_users, persists that status, and
returns (no error) without making any backend call and without touching
the store. -/
theorem reconcile_nonConfigurable (transform : Transformer)
    (env : List (String × GroupSpec)) (ldap : LdapOracle)
    (benv : String → BackendEnv) (groupCR : GroupSpec) (st : CacheState)
    (h : ∀ b ∈ groupCR.backends, transform b.type groupCR.groupName = none) :
    reconcile transform env ldap benv groupCR st =
      { state := st, reconciledUsers := [], ready := false,
        reason := "NonConfigurable", backendsStatus := [], backendErrors := [],
        didIndexUpdate := false, result := .ok (), calls := [] } := by
  have hconf : isGroupConfigurable transform groupCR = false := by
    unfold isGroupConfigurable
    by_cases hb : groupCR.backends.isEmpty
    · simp [hb]
    · rw [if_neg hb]
      rw [List.any_eq_false]
      intro b hbmem
      rw [h b hbmem]
      simp
  unfold reconcile
  rw [hconf]
  rfl

/-- C4 witness: a group whose single backend's transformer rejects its
name takes the NonConfigurable early return. -/
theorem reconcile_nonConfigurable_witness :
    (∀ b ∈ ({ groupName := "no-rules-match", users := ["alice"], groups := [],
              backends := [{ name := "ftA", type := "fivetran" }],
              groupParams := [] } : GroupSpec).backends,
       (fun _ _ => (none : Option String)) b.type "no-rules-match" = none) ∧
    reconcile (fun _ _ => none) [] (fun _ => none)
        (fun _ => { newClient := .ok (), ldapSync := fun _ => .ok false,
                    createTeam := fun _ => .error "unreachable",
                    createUser := fun _ => .error "unreachable",
                    fetchTeamMembers := fun _ => .error "unreachable",
                    addUserToTeam := fun _ _ => .error "unreachable",
                    removeUserFromTeam := fun _ _ => .error "unreachable" })
        { groupName := "no-rules-match", users := ["alice"], groups := [],
          backends := [{ name := "ftA", type := "fivetran" }], groupParams := [] }
        { userBackends := [], teamBackends := [], groupMembers := [],
          groupBackends := [], userGroups := [] } =
      { state := { userBackends := [], teamBackends := [], groupMembers := [],
                   groupBackends := [], userGroups := [] },
        reconciledUsers := [], ready := false, reason := "NonConfigurable",
        backendsStatus := [], backendErrors := [], didIndexUpdate := false,
        result := .ok (), calls := [] } :=
  ⟨fun _ _ => rfl,
   reconcile_nonConfigurable (fun _ _ => none) [] (fun _ => none) _ _ _
     (fun _ _ => rfl)⟩

/-- C10: a group declaring an empty backends list is classified
non-configurable by `isGroupConfigurable` without consulting any
transformer rule (the theorem holds for every transformer), and the
reconcile ends in the same NonConfigurable early return: Ready=False,
empty reconciled_users, no member expansion and no backend processing. -/
theorem reconcile_emptyBackendList (transform : Transformer)
    (env : List (String × GroupSpec)) (ldap : LdapOracle)
    (benv : String → BackendEnv) (groupCR : GroupSpec) (st : CacheState)
    (h : groupCR.backends = []) :
    isGroupConfigurable transform groupCR = false ∧
    reconcile transform env ldap benv groupCR st =
      { state := st, reconciledUsers := [], ready := false,
        reason := "NonConfigurable", backendsStatus := [], backendErrors := [],
        didIndexUpdate := false, result := .ok (), calls := [] } := by
  have hconf : isGroupConfigurable transform groupCR = false := by
    unfold isGroupConfigurable
    simp [h]
  refine ⟨hconf, ?_⟩
  unfold reconcile
  rw [hconf]
  rfl

/-- C10 witness: a concrete group with an empty backend list. -/
theorem reconcile_emptyBackendList_witness :
    (({ groupName := "g-empty", users := ["alice"], groups := ["g-sub"],
        backends := [], groupParams := [] } : GroupSpec).backends = []) ∧
    (isGroupConfigurable (fun _ _ => some "match-everything")
        { groupName := "g-empty", users := ["alice"], groups := ["g-sub"],
          backends := [], groupParams := [] } = false ∧
     reconcile (fun _ _ => some "match-everything") [] (fun _ => none)
        (fun _ => { newClient := .ok (), ldapSync := fun _ => .ok false,
                    createTeam := fun _ => .error "unreachable",
                    createUser := fun _ => .error "unreachable",
                    fetchTeamMembers := fun _ => .error "unreachable",
                    addUserToTeam := fun _ _ => .error "unreachable",
                    removeUserFromTeam := fun _ _ => .error "unreachable" })
        { groupName := "g-empty", users := ["alice"], groups := ["g-sub"],
          backends := [], groupParams := [] }
        { userBackends := [], teamBackends := [], groupMembers := [],
          groupBackends := [], userGroups := [] } =
      { state := { userBackends := [], teamBackends := [], groupMembers := [],
                   groupBackends := [], userGroups := [] },
        reconciledUsers := [], ready := false, reason := "NonConfigurable",
        backendsStatus := [], backendErrors := [], didIndexUpdate := false,
        result := .ok (), calls := [] }) :=
  ⟨rfl,
   reconcile_emptyBackendList (fun _ _ => some "match-everything") [] (fun _ => none)
     _ _ _ rfl⟩

/-- C8: `isUserActiveInLDAP` classifies a user as inactive exactly when
the lookup by email returns the no-user-found sentinel, an LDAP No Such
Object error, or an empty attribute map; for any other LDAP error
`processUser` offboards nothing (no backend call, store unchanged) and
records the failure among the job's error messages. -/
theorem isUserActiveInLDAP_spec (env : Offboarding.OffboardEnv)
    (clients : List String) (st : CacheState) (userKey : String) :
    (Offboarding.isUserActiveInLDAP env userKey = .ok false ↔
      (env.ldapByEmail userKey = .errNoUserFound ∨
       env.ldapByEmail userKey = .errLdapCode Offboarding.LDAPResultNoSuchObject ∨
       env.ldapByEmail userKey = .ok [])) ∧
    (∀ code, env.ldapByEmail userKey = .errLdapCode code →
      code ≠ Offboarding.LDAPResultNoSuchObject →
      (Offboarding.processUser env clients st userKey =
        (.error ("failed to check LDAP for user " ++ userKey ++ ": " ++
          ("ldap result code " ++ toString code)), st, []) ∧
       (Offboarding.processUsersJob env clients [userKey] st).1.offboardedUsers = [] ∧
       (Offboarding.processUsersJob env clients [userKey] st).1.errors.length = 1 ∧
       (Offboarding.processUsersJob env clients [userKey] st).2 = st)) ∧
    (∀ msg, env.ldapByEmail userKey = .errOther msg →
      (Offboarding.processUser env clients st userKey =
        (.error ("failed to check LDAP for user " ++ userKey ++ ": " ++ msg), st, []) ∧
       (Offboarding.processUsersJob env clients [userKey] st).1.offboardedUsers = [] ∧
       (Offboarding.processUsersJob env clients [userKey] st).1.errors.length = 1 ∧
       (Offboarding.processUsersJob env clients [userKey] st).2 = st)) := by
  refine ⟨?_, ?_, ?_⟩
  · unfold Offboarding.isUserActiveInLDAP
    cases hl : env.ldapByEmail userKey with
    | ok attrs =>
      cases attrs with
      | nil => simp
      | cons a rest => simp
    | errNoUserFound => simp
    | errLdapCode code =>
      by_cases hc : code = Offboarding.LDAPResultNoSuchObject
      · simp [hc]
      · simp [hc]
    | errOther msg => simp
  · intro code hl hc
    have hact : Offboarding.isUserActiveInLDAP env userKey =
        .error ("ldap result code " ++ toString code) := by
      unfold Offboarding.isUserActiveInLDAP
      rw [hl]
      simp [hc]
    have hpu : Offboarding.processUser env clients st userKey =
        (.error ("failed to check LDAP for user " ++ userKey ++ ": " ++
          ("ldap result code " ++ toString code)), st, []) := by
      unfold Offboarding.processUser
      rw [hact]
    refine ⟨hpu, ?_, ?_, ?_⟩ <;>
      simp [Offboarding.processUsersJob, hpu]
  · intro msg hl
    have hact : Offboarding.isUserActiveInLDAP env userKey = .error msg := by
      unfold Offboarding.isUserActiveInLDAP
      rw [hl]
    have hpu : Offboarding.processUser env clients st userKey =
        (.error ("failed to check LDAP for user " ++ userKey ++ ": " ++ msg), st, []) := by
      unfold Offboarding.processUser
      rw [hact]
    refine ⟨hpu, ?_, ?_, ?_⟩ <;>
      simp [Offboarding.processUsersJob, hpu]

/-- C8 witness: an LDAP error with result code 50 (insufficient access,
not No Such Object) leaves the user in place and is reported. -/
theorem isUserActiveInLDAP_spec_witness :
    (({ ldapByEmail := fun _ => .errLdapCode 50,
        deleteUser := fun _ _ => .ok () } : Offboarding.OffboardEnv).ldapByEmail
          "busy@x" = .errLdapCode 50) ∧
    (50 ≠ Offboarding.LDAPResultNoSuchObject) ∧
    ((Offboarding.processUser
        { ldapByEmail := fun _ => .errLdapCode 50, deleteUser := fun _ _ => .ok () }
        ["ftA_fivetran"]
        { userBackends := [("busy@x", [("ftA_fivetran", "U7")])], teamBackends := [],
          groupMembers := [], groupBackends := [], userGroups := [] } "busy@x" =
      (.error ("failed to check LDAP for user " ++ "busy@x" ++ ": " ++
        ("ldap result code " ++ toString 50)),
       { userBackends := [("busy@x", [("ftA_fivetran", "U7")])], teamBackends := [],
         groupMembers := [], groupBackends := [], userGroups := [] }, [])) ∧
     (Offboarding.processUsersJob
        { ldapByEmail := fun _ => .errLdapCode 50, deleteUser := fun _ _ => .ok () }
        ["ftA_fivetran"]
        ["busy@x"]
        { userBackends := [("busy@x", [("ftA_fivetran", "U7")])], teamBackends := [],
          groupMembers := [], groupBackends := [], userGroups := [] }).1.offboardedUsers = [] ∧
     (Offboarding.processUsersJob
        { ldapByEmail := fun _ => .errLdapCode 50, deleteUser := fun _ _ => .ok () }
        ["ftA_fivetran"]
        ["busy@x"]
        { userBackends := [("busy@x", [("ftA_fivetran", "U7")])], teamBackends := [],
          groupMembers := [], groupBackends := [], userGroups := [] }).1.errors.length = 1 ∧
     (Offboarding.processUsersJob
        { ldapByEmail := fun _ => .errLdapCode 50, deleteUser := fun _ _ => .ok () }
        ["ftA_fivetran"]
        ["busy@x"]
        { userBackends := [("busy@x", [("ftA_fivetran", "U7")])], teamBackends := [],
          groupMembers := [], groupBackends := [], userGroups := [] }).2 =
       { userBackends := [("busy@x", [("ftA_fivetran", "U7")])], teamBackends := [],
         groupMembers := [], groupBackends := [], userGroups := [] }) :=
  ⟨rfl, by decide,
   (isUserActiveInLDAP_spec
      { ldapByEmail := fun _ => .errLdapCode 50, deleteUser := fun _ _ => .ok () }
      ["ftA_fivetran"]
      { userBackends := [("busy@x", [("ftA_fivetran", "U7")])], teamBackends := [],
        groupMembers := [], groupBackends := [], userGroups := [] }
      "busy@x").2.1 50 rfl (by decide)⟩

theorem getGroupBackendID_setGroupBackend_same (st : CacheState)
    (groupName bk id : String) :
    getGroupBackendID (setGroupBackend st groupName bk id) groupName bk = id := by
  unfold getGroupBackendID setGroupBackend
  simp [getEntry_setEntry_same]

theorem setGroupBackend_teamBackends (st : CacheState) (groupName bk id : String) :
    (setGroupBackend st groupName bk id).teamBackends = st.teamBackends := rfl

/-- C5: `fetchOrCreateTeam` resolution order.  (1) It never writes the
Team preload store.  (2) A non-empty id in the Group store is returned
with the state unchanged.  (3) Otherwise a non-empty preload id under the
transformed name is promoted into the Group store and returned, and a
subsequent call on the resulting state returns the same id from the Group
store without change, whatever the preload store then contains (it is
never read again for this group and backend).  (4) Otherwise `CreateTeam`
is called with the transformed name and a new id is recorded in the Group
store only. -/
theorem fetchOrCreateTeam_spec (transform : Transformer) (env : BackendEnv)
    (G : String) (bp : BackendParams) (st : CacheState) (calls : List Call) :
    ((fetchOrCreateTeam transform env G bp st calls).2.1.teamBackends =
      st.teamBackends) ∧
    (∀ tn, transform bp.type G = some tn →
      getGroupBackendID st G (bp.name ++ "_" ++ bp.type) ≠ "" →
      fetchOrCreateTeam transform env G bp st calls =
        (.ok (getGroupBackendID st G (bp.name ++ "_" ++ bp.type)), st, calls)) ∧
    (∀ tn id, transform bp.type G = some tn →
      getGroupBackendID st G (bp.name ++ "_" ++ bp.type) = "" →
      getEntry (getTeamBackends st tn) (bp.name ++ "_" ++ bp.type) = some id →
      id ≠ "" →
      (fetchOrCreateTeam transform env G bp st calls =
        (.ok id, setGroupBackend st G (bp.name ++ "_" ++ bp.type) id, calls)) ∧
      (∀ tb' calls',
        fetchOrCreateTeam transform env G bp
          { setGroupBackend st G (bp.name ++ "_" ++ bp.type) id with
              teamBackends := tb' } calls' =
        (.ok id,
         { setGroupBackend st G (bp.name ++ "_" ++ bp.type) id with
             teamBackends := tb' }, calls'))) ∧
    (∀ tn, transform bp.type G = some tn →
      getGroupBackendID st G (bp.name ++ "_" ++ bp.type) = "" →
      getEntry (getTeamBackends st tn) (bp.name ++ "_" ++ bp.type) = none →
      fetchOrCreateTeam transform env G bp st calls =
        (match env.createTeam { name := tn, description := "team for " ++ G,
                                role := AccountReviewerRole,
                                teamParams := bp.groupParams } with
         | .error e => (.error e, st,
             calls ++ [Call.createTeam (bp.name ++ "_" ++ bp.type)
               { name := tn, description := "team for " ++ G,
                 role := AccountReviewerRole, teamParams := bp.groupParams }])
         | .ok newID => (.ok newID,
             setGroupBackend st G (bp.name ++ "_" ++ bp.type) newID,
             calls ++ [Call.createTeam (bp.name ++ "_" ++ bp.type)
               { name := tn, description := "team for " ++ G,
                 role := AccountReviewerRole, teamParams := bp.groupParams }]))) := by
  refine ⟨?_, ?_, ?_, ?_⟩
  · unfold fetchOrCreateTeam
    cases transform bp.type G with
    | none => rfl
    | some tn =>
      simp only []
      split
      · rfl
      · split
        · split
          · rfl
          · cases env.createTeam _ with
            | error e => rfl
            | ok newID => exact setGroupBackend_teamBackends st G _ newID
        · cases env.createTeam _ with
          | error e => rfl
          | ok newID => exact setGroupBackend_teamBackends st G _ newID
  · intro tn htn hid
    unfold fetchOrCreateTeam
    simp only [htn]
    rw [if_pos hid]
  · intro tn id htn hid hentry hidne
    constructor
    · unfold fetchOrCreateTeam
      simp only [htn]
      rw [if_neg (by simp [hid])]
      simp only [hentry]
      rw [if_pos hidne]
    · intro tb' calls'
      have hsame : getGroupBackendID
          ({ setGroupBackend st G (bp.name ++ "_" ++ bp.type) id with
              teamBackends := tb' }) G (bp.name ++ "_" ++ bp.type) = id := by
        have heq : getGroupBackendID
            ({ setGroupBackend st G (bp.name ++ "_" ++ bp.type) id with
                teamBackends := tb' }) G (bp.name ++ "_" ++ bp.type) =
            getGroupBackendID (setGroupBackend st G (bp.name ++ "_" ++ bp.type) id)
              G (bp.name ++ "_" ++ bp.type) := rfl
        rw [heq, getGroupBackendID_setGroupBackend_same]
      unfold fetchOrCreateTeam
      simp only [htn]
      rw [if_pos (by rw [hsame]; exact hidne)]
      rw [hsame]
  · intro tn htn hid hentry
    unfold fetchOrCreateTeam
    simp only [htn]
    rw [if_neg (by simp [hid])]
    simp only [hentry]

/-- C5 witness: exercises the promotion branch on a concrete state where
the Group store is empty and the preload store holds the id. -/
theorem fetchOrCreateTeam_spec_witness :
    ((fun _ _ => some "tn-g1") "fivetran" "g1" = some "tn-g1") ∧
    (getGroupBackendID
      { userBackends := [], teamBackends := [("tn-g1", [("ftA_fivetran", "T9")])],
        groupMembers := [], groupBackends := [], userGroups := [] }
      "g1" ("ftA" ++ "_" ++ "fivetran") = "") ∧
    (getEntry (getTeamBackends
      { userBackends := [], teamBackends := [("tn-g1", [("ftA_fivetran", "T9")])],
        groupMembers := [], groupBackends := [], userGroups := [] } "tn-g1")
      ("ftA" ++ "_" ++ "fivetran") = some "T9") ∧
    ("T9" ≠ "") ∧
    (fetchOrCreateTeam (fun _ _ => some "tn-g1")
      { newClient := .ok (), ldapSync := fun _ => .ok false,
        createTeam := fun _ => .error "unreachable",
        createUser := fun _ => .error "unreachable",
        fetchTeamMembers := fun _ => .error "unreachable",
        addUserToTeam := fun _ _ => .error "unreachable",
        removeUserFromTeam := fun _ _ => .error "unreachable" }
      "g1" { name := "ftA", type := "fivetran", groupParams := { property := "", value := [] } }
      { userBackends := [], teamBackends := [("tn-g1", [("ftA_fivetran", "T9")])],
        groupMembers := [], groupBackends := [], userGroups := [] } [] =
      (.ok "T9",
       setGroupBackend
         { userBackends := [], teamBackends := [("tn-g1", [("ftA_fivetran", "T9")])],
           groupMembers := [], groupBackends := [], userGroups := [] }
         "g1" ("ftA" ++ "_" ++ "fivetran") "T9", [])) :=
  ⟨rfl, by decide, by decide, by decide,
   ((fetchOrCreateTeam_spec (fun _ _ => some "tn-g1")
      { newClient := .ok (), ldapSync := fun _ => .ok false,
        createTeam := fun _ => .error "unreachable",
        createUser := fun _ => .error "unreachable",
        fetchTeamMembers := fun _ => .error "unreachable",
        addUserToTeam := fun _ _ => .error "unreachable",
        removeUserFromTeam := fun _ _ => .error "unreachable" }
      "g1" { name := "ftA", type := "fivetran", groupParams := { property := "", value := [] } }
      { userBackends := [], teamBackends := [("tn-g1", [("ftA_fivetran", "T9")])],
        groupMembers := [], groupBackends := [], userGroups := [] } []).2.2.1
     "tn-g1" "T9" rfl (by decide) (by decide) (by decide)).1⟩

/-- The backend ids the delta computation syncs: for each group member
resolved in LDAP, the id cached for this backend under the member's email
(the empty string when absent; `processUsers` errors in that case). -/
def resolvedBackendIDs (ldapData : List (String × LDAPUser)) (st : CacheState)
    (groupUsers : List String) (backendKey : String) : List String :=
  groupUsers.filterMap (fun u => (getEntry ldapData u).map
    (fun ud => (getEntry (getUserBackends st ud.email) backendKey).getD ""))

theorem processUsersLoop_ok (ldapData : List (String × LDAPUser)) (st : CacheState)
    (groupUsers existing : List String) (bk : String) (ids rem : List String)
    (h : processUsersLoop ldapData st groupUsers existing bk = .ok (ids, rem)) :
    ids = resolvedBackendIDs ldapData st groupUsers bk ∧
    rem = groupUsers.filter
      (fun u => (getEntry ldapData u).isNone && decide (u ∈ existing)) := by
  induction groupUsers generalizing ids rem with
  | nil =>
    simp only [processUsersLoop] at h
    obtain ⟨rfl, rfl⟩ : ids = [] ∧ rem = [] := by
      constructor <;> { injection h with h'; injection h' with h1 h2; simp [h1.symm, h2.symm] }
    simp [resolvedBackendIDs]
  | cons u rest ih =>
    simp only [processUsersLoop] at h
    cases hd : getEntry ldapData u with
    | none =>
      simp only [hd] at h
      cases hrec : processUsersLoop ldapData st rest existing bk with
      | error e => simp only [hrec] at h; simp at h
      | ok p =>
        obtain ⟨ids0, rem0⟩ := p
        simp only [hrec] at h
        obtain ⟨hids0, hrem0⟩ := ih ids0 rem0 hrec
        by_cases hmem : u ∈ existing
        · rw [if_pos hmem] at h
          obtain ⟨rfl, rfl⟩ : ids = ids0 ∧ rem = u :: rem0 := by
            constructor <;> { injection h with h'; injection h' with h1 h2; simp [h1.symm, h2.symm] }
          constructor
          · rw [hids0]
            simp [resolvedBackendIDs, hd]
          · rw [hrem0]
            simp [List.filter_cons, hd, hmem]
        · rw [if_neg hmem] at h
          obtain ⟨rfl, rfl⟩ : ids = ids0 ∧ rem = rem0 := by
            constructor <;> { injection h with h'; injection h' with h1 h2; simp [h1.symm, h2.symm] }
          constructor
          · rw [hids0]
            simp [resolvedBackendIDs, hd]
          · rw [hrem0]
            simp [List.filter_cons, hd, hmem]
    | some ud =>
      simp only [hd] at h
      by_cases hz : (getEntry (getUserBackends st ud.email) bk).getD "" = ""
      · rw [if_pos hz] at h
        exact absurd h (by simp)
      · rw [if_neg hz] at h
        cases hrec : processUsersLoop ldapData st rest existing bk with
        | error e => simp only [hrec] at h; simp at h
        | ok p =>
          obtain ⟨ids0, rem0⟩ := p
          simp only [hrec] at h
          obtain ⟨hids0, hrem0⟩ := ih ids0 rem0 hrec
          obtain ⟨rfl, rfl⟩ :
              ids = (getEntry (getUserBackends st ud.email) bk).getD "" :: ids0 ∧
              rem = rem0 := by
            constructor <;> { injection h with h'; injection h' with h1 h2; simp [h1.symm, h2.symm] }
          constructor
          · rw [hids0]
            simp [resolvedBackendIDs, hd]
          · rw [hrem0]
            simp [List.filter_cons, hd]

/-- C6: on a successful delta computation, `toAdd` is exactly the synced
backend ids that are not among the existing team-member ids, and
`toRemove` is exactly the existing ids not among the synced ids together
with the LDAP-unresolved group members that appear among the existing
team-member ids (for an unresolved member the member name itself is the
only id available and is matched against the existing ids). -/
theorem processUsers_delta (ldapData : List (String × LDAPUser)) (st : CacheState)
    (groupUsers existing : List String) (backendName backendType : String)
    (toAdd toRemove : List String)
    (h : processUsers ldapData st groupUsers existing backendName backendType =
      .ok (toAdd, toRemove)) :
    (∀ id, id ∈ toAdd ↔
      (id ∈ resolvedBackendIDs ldapData st groupUsers
          (backendName ++ "_" ++ backendType) ∧ id ∉ existing)) ∧
    (∀ x, x ∈ toRemove ↔
      ((x ∈ existing ∧ x ∉ resolvedBackendIDs ldapData st groupUsers
          (backendName ++ "_" ++ backendType)) ∨
       (x ∈ groupUsers ∧ getEntry ldapData x = none ∧ x ∈ existing))) := by
  unfold processUsers at h
  cases hloop : processUsersLoop ldapData st groupUsers existing
      (backendName ++ "_" ++ backendType) with
  | error e => simp only [hloop] at h; simp at h
  | ok p =>
    obtain ⟨ids, rem1⟩ := p
    simp only [hloop] at h
    obtain ⟨hids, hrem1⟩ := processUsersLoop_ok ldapData st groupUsers existing
      (backendName ++ "_" ++ backendType) ids rem1 hloop
    obtain ⟨rfl, rfl⟩ :
        toAdd = ids.filter (fun id => decide (id ∉ existing)) ∧
        toRemove = rem1 ++ existing.filter (fun m => decide (m ∉ ids)) := by
      constructor <;> { injection h with h'; injection h' with h1 h2; simp [h1.symm, h2.symm] }
    constructor
    · intro id
      rw [hids]
      simp [List.mem_filter]
    · intro x
      rw [hrem1, hids]
      simp only [List.mem_append, List.mem_filter]
      constructor
      · rintro (hx | hx)
        · simp only [Bool.and_eq_true, decide_eq_true_eq, Option.isNone_iff_eq_none] at hx
          exact Or.inr ⟨hx.1, hx.2.1, hx.2.2⟩
        · simp only [decide_eq_true_eq] at hx
          exact Or.inl hx
      · rintro (hx | hx)
        · right
          simp only [decide_eq_true_eq]
          exact hx
        · left
          simp only [Bool.and_eq_true, decide_eq_true_eq, Option.isNone_iff_eq_none]
          exact ⟨hx.1, hx.2.1, hx.2.2⟩

/-- C6 witness: alice resolves with cached id A1; ghost is unresolved but
present among the existing member ids; B2 is an existing id no longer
synced. -/
theorem processUsers_delta_witness :
    (processUsers
      [("alice", { uid := "alice", email := "alice@x", displayName := "Alice", sn := "A" })]
      { userBackends := [("alice@x", [("ftA_fivetran", "A1")])], teamBackends := [],
        groupMembers := [], groupBackends := [], userGroups := [] }
      ["alice", "ghost"] ["ghost", "B2"] "ftA" "fivetran" =
        .ok (["A1"], ["ghost", "ghost", "B2"])) ∧
    ("A1" ∈ (["A1"] : List String) ↔
      ("A1" ∈ resolvedBackendIDs
          [("alice", { uid := "alice", email := "alice@x", displayName := "Alice", sn := "A" })]
          { userBackends := [("alice@x", [("ftA_fivetran", "A1")])], teamBackends := [],
            groupMembers := [], groupBackends := [], userGroups := [] }
          ["alice", "ghost"] ("ftA" ++ "_" ++ "fivetran") ∧
        "A1" ∉ (["ghost", "B2"] : List String))) :=
  ⟨rfl,
   (processUsers_delta
      [("alice", { uid := "alice", email := "alice@x", displayName := "Alice", sn := "A" })]
      { userBackends := [("alice@x", [("ftA_fivetran", "A1")])], teamBackends := [],
        groupMembers := [], groupBackends := [], userGroups := [] }
      ["alice", "ghost"] ["ghost", "B2"] "ftA" "fivetran"
      ["A1"] ["ghost", "ghost", "B2"] rfl).1 "A1"⟩

theorem offboardLoop_calls (env : Offboarding.OffboardEnv) (clients : List String)
    (userData : List (String × String)) (errs : List String) (calls : List Call)
    (bk id : String) :
    Call.deleteUser bk id ∈ (Offboarding.offboardLoop env clients userData errs calls).2 ↔
      (Call.deleteUser bk id ∈ calls ∨
       (bk ∈ clients ∧ getEntry userData bk = some id ∧
        2 ≤ (Offboarding.splitUnderscore bk).length ∧
        Offboarding.lowerString ((Offboarding.splitUnderscore bk).getLastD "") ≠ "gitlab" ∧
        Offboarding.lowerString ((Offboarding.splitUnderscore bk).getLastD "") ≠ "rover")) := by
  induction clients generalizing errs calls with
  | nil => simp [Offboarding.offboardLoop]
  | cons c rest ih =>
    unfold Offboarding.offboardLoop
    by_cases hfmt : (Offboarding.splitUnderscore c).length < 2
    · rw [if_pos hfmt]
      rw [ih errs calls]
      constructor
      · rintro (hc | hq)
        · exact Or.inl hc
        · exact Or.inr ⟨List.mem_cons_of_mem _ hq.1, hq.2⟩
      · rintro (hc | hq)
        · exact Or.inl hc
        · rcases List.mem_cons.mp hq.1 with rfl | hbk
          · omega
          · exact Or.inr ⟨hbk, hq.2⟩
    · rw [if_neg hfmt]
      by_cases hskip : Offboarding.lowerString ((Offboarding.splitUnderscore c).getLastD "") = "gitlab" ∨
          Offboarding.lowerString ((Offboarding.splitUnderscore c).getLastD "") = "rover"
      · rw [if_pos hskip]
        rw [ih errs calls]
        constructor
        · rintro (hc | hq)
          · exact Or.inl hc
          · exact Or.inr ⟨List.mem_cons_of_mem _ hq.1, hq.2⟩
        · rintro (hc | hq)
          · exact Or.inl hc
          · rcases List.mem_cons.mp hq.1 with rfl | hbk
            · rcases hskip with hs | hs
              · exact absurd hs hq.2.2.2.1
              · exact absurd hs hq.2.2.2.2
            · exact Or.inr ⟨hbk, hq.2⟩
      · rw [if_neg hskip]
        cases hentry : getEntry userData c with
        | none =>
          simp only []
          rw [ih errs calls]
          constructor
          · rintro (hc | hq)
            · exact Or.inl hc
            · exact Or.inr ⟨List.mem_cons_of_mem _ hq.1, hq.2⟩
          · rintro (hc | hq)
            · exact Or.inl hc
            · rcases List.mem_cons.mp hq.1 with rfl | hbk
              · rw [hentry] at hq
                exact absurd hq.2.1 (by simp)
              · exact Or.inr ⟨hbk, hq.2⟩
        | some uid =>
          simp only []
          cases env.deleteUser c uid with
          | error e =>
            rw [ih _ (calls ++ [Call.deleteUser c uid])]
            rw [List.mem_append, List.mem_singleton]
            constructor
            · rintro ((hc | hone) | hq)
              · exact Or.inl hc
              · have hbk : bk = c := by
                  injection hone with h1 h2
                have huid : id = uid := by
                  injection hone with h1 h2
                subst hbk
                subst huid
                refine Or.inr ⟨List.mem_cons_self _ _, hentry, ?_, ?_, ?_⟩
                · omega
                · intro hgl
                  exact hskip (Or.inl hgl)
                · intro hrv
                  exact hskip (Or.inr hrv)
              · exact Or.inr ⟨List.mem_cons_of_mem _ hq.1, hq.2⟩
            · rintro (hc | hq)
              · exact Or.inl (Or.inl hc)
              · rcases List.mem_cons.mp hq.1 with rfl | hbk
                · rw [hentry] at hq
                  have hiu : id = uid := by
                    have h2 := hq.2.1
                    injection h2 with h3
                    exact h3.symm
                  subst hiu
                  exact Or.inl (Or.inr rfl)
                · exact Or.inr ⟨hbk, hq.2⟩
          | ok u =>
            rw [ih errs (calls ++ [Call.deleteUser c uid])]
            rw [List.mem_append, List.mem_singleton]
            constructor
            · rintro ((hc | hone) | hq)
              · exact Or.inl hc
              · have hbk : bk = c := by
                  injection hone with h1 h2
                have huid : id = uid := by
                  injection hone with h1 h2
                subst hbk
                subst huid
                refine Or.inr ⟨List.mem_cons_self _ _, hentry, ?_, ?_, ?_⟩
                · omega
                · intro hgl
                  exact hskip (Or.inl hgl)
                · intro hrv
                  exact hskip (Or.inr hrv)
              · exact Or.inr ⟨List.mem_cons_of_mem _ hq.1, hq.2⟩
            · rintro (hc | hq)
              · exact Or.inl (Or.inl hc)
              · rcases List.mem_cons.mp hq.1 with rfl | hbk
                · rw [hentry] at hq
                  have hiu : id = uid := by
                    have h2 := hq.2.1
                    injection h2 with h3
                    exact h3.symm
                  subst hiu
                  exact Or.inl (Or.inr rfl)
                · exact Or.inr ⟨hbk, hq.2⟩

/-- C7 (amended): for an inactive user, `DeleteUser(id)` is called exactly
for the entries (bk → id) of the user's cached backend mapping whose
backend key is also a configured backend client, contains an underscore,
and whose type (segment after the last underscore, lowercased) is neither
gitlab nor rover.  If every such deletion succeeds the user's User-store
entry is deleted (under the exclusive cache mutex, not modelled); if any
deletion fails the aggregated error is returned and the User-store entry
is left in place. -/
theorem offboardUser_spec (env : Offboarding.OffboardEnv) (clients : List String)
    (st : CacheState) (userKey : String) (userData : List (String × String))
    (userEmail : String)
    (hdata : Offboarding.getUserDataFromCache st userKey = .ok (userData, userEmail)) :
    (∀ bk id,
      Call.deleteUser bk id ∈ (Offboarding.offboardUser env clients st userKey).2.2 ↔
        (bk ∈ clients ∧ getEntry userData bk = some id ∧
         2 ≤ (Offboarding.splitUnderscore bk).length ∧
         Offboarding.lowerString ((Offboarding.splitUnderscore bk).getLastD "") ≠ "gitlab" ∧
         Offboarding.lowerString ((Offboarding.splitUnderscore bk).getLastD "") ≠ "rover")) ∧
    ((Offboarding.offboardUser env clients st userKey).1 = .ok () →
      (Offboarding.offboardUser env clients st userKey).2.1 =
        deleteUserEntry st userEmail) ∧
    (∀ e, (Offboarding.offboardUser env clients st userKey).1 = .error e →
      (Offboarding.offboardUser env clients st userKey).2.1 = st) := by
  have hloop := offboardLoop_calls env clients userData [] []
  unfold Offboarding.offboardUser
  simp only [hdata]
  unfold Offboarding.offboardUserFromAllBackends
  cases hl : Offboarding.offboardLoop env clients userData [] [] with
  | mk errsL callsL =>
    simp only []
    by_cases hempty : errsL.isEmpty
    · rw [if_pos hempty]
      refine ⟨?_, fun _ => rfl, fun e he => by simp at he⟩
      intro bk id
      have := hloop bk id
      rw [hl] at this
      simpa using this
    · rw [if_neg hempty]
      refine ⟨?_, fun hok => by simp at hok, fun e he => rfl⟩
      intro bk id
      have := hloop bk id
      rw [hl] at this
      simpa using this

/-- C7 counterexample to the claim as stated: the inactive user gone@x
has cached entries for ftA_fivetran and orphan_snowflake; snowflake is
neither gitlab nor rover, yet no `DeleteUser` is made for it because
orphan_snowflake is not among the configured backend clients.  The
ftA_fivetran deletion fails, and the user's User-store entry is then NOT
deleted, although the claim says the entry is deleted after collecting
per-backend errors. -/
theorem offboardUser_claim_counterexample :
    ((Offboarding.offboardUser
        { ldapByEmail := fun _ => .errNoUserFound,
          deleteUser := fun _ _ => .error "boom" }
        ["ftA_fivetran"]
        { userBackends :=
            [("gone@x", [("ftA_fivetran", "U1"), ("orphan_snowflake", "U2")])],
          teamBackends := [], groupMembers := [], groupBackends := [],
          userGroups := [] }
        "gone@x").2.2 = [Call.deleteUser "ftA_fivetran" "U1"]) ∧
    (Call.deleteUser "orphan_snowflake" "U2" ∉
      (Offboarding.offboardUser
        { ldapByEmail := fun _ => .errNoUserFound,
          deleteUser := fun _ _ => .error "boom" }
        ["ftA_fivetran"]
        { userBackends :=
            [("gone@x", [("ftA_fivetran", "U1"), ("orphan_snowflake", "U2")])],
          teamBackends := [], groupMembers := [], groupBackends := [],
          userGroups := [] }
        "gone@x").2.2) ∧
    ((Offboarding.offboardUser
        { ldapByEmail := fun _ => .errNoUserFound,
          deleteUser := fun _ _ => .error "boom" }
        ["ftA_fivetran"]
        { userBackends :=
            [("gone@x", [("ftA_fivetran", "U1"), ("orphan_snowflake", "U2")])],
          teamBackends := [], groupMembers := [], groupBackends := [],
          userGroups := [] }
        "gone@x").2.1 =
      { userBackends :=
          [("gone@x", [("ftA_fivetran", "U1"), ("orphan_snowflake", "U2")])],
        teamBackends := [], groupMembers := [], groupBackends := [],
        userGroups := [] }) := by
  refine ⟨by decide, by decide, by decide⟩

/-- C7 witness for the amended theorem: gone2@x is mapped on ftA_fivetran
and git-main_gitlab; only the fivetran entry is deleted, then the store
entry is removed. -/
theorem offboardUser_spec_witness :
    (Offboarding.getUserDataFromCache
      { userBackends :=
          [("gone2@x", [("ftA_fivetran", "U3"), ("git-main_gitlab", "G1")])],
        teamBackends := [], groupMembers := [], groupBackends := [],
        userGroups := [] } "gone2@x" =
      .ok ([("ftA_fivetran", "U3"), ("git-main_gitlab", "G1")], "gone2@x")) ∧
    ((Offboarding.offboardUser
        { ldapByEmail := fun _ => .errNoUserFound,
          deleteUser := fun _ _ => .ok () }
        ["ftA_fivetran", "git-main_gitlab"]
        { userBackends :=
            [("gone2@x", [("ftA_fivetran", "U3"), ("git-main_gitlab", "G1")])],
          teamBackends := [], groupMembers := [], groupBackends := [],
          userGroups := [] }
        "gone2@x").1 = .ok () →
      (Offboarding.offboardUser
        { ldapByEmail := fun _ => .errNoUserFound,
          deleteUser := fun _ _ => .ok () }
        ["ftA_fivetran", "git-main_gitlab"]
        { userBackends :=
            [("gone2@x", [("ftA_fivetran", "U3"), ("git-main_gitlab", "G1")])],
          teamBackends := [], groupMembers := [], groupBackends := [],
          userGroups := [] }
        "gone2@x").2.1 =
      deleteUserEntry
        { userBackends :=
            [("gone2@x", [("ftA_fivetran", "U3"), ("git-main_gitlab", "G1")])],
          teamBackends := [], groupMembers := [], groupBackends := [],
          userGroups := [] } "gone2@x") :=
  ⟨rfl,
   (offboardUser_spec
      { ldapByEmail := fun _ => .errNoUserFound, deleteUser := fun _ _ => .ok () }
      ["ftA_fivetran", "git-main_gitlab"]
      { userBackends :=
          [("gone2@x", [("ftA_fivetran", "U3"), ("git-main_gitlab", "G1")])],
        teamBackends := [], groupMembers := [], groupBackends := [],
        userGroups := [] }
      "gone2@x" [("ftA_fivetran", "U3"), ("git-main_gitlab", "G1")] "gone2@x"
      rfl).2.1⟩

/-! ### State preservation: per-backend processing never touches the
group-member lists or the reverse index (C1 machinery). -/

theorem fetchOrCreateTeam_preserves (transform : Transformer) (env : BackendEnv)
    (G : String) (bp : BackendParams) (st : CacheState) (calls : List Call) :
    (fetchOrCreateTeam transform env G bp st calls).2.1.groupMembers = st.groupMembers ∧
    (fetchOrCreateTeam transform env G bp st calls).2.1.userGroups = st.userGroups := by
  unfold fetchOrCreateTeam
  cases transform bp.type G with
  | none => exact ⟨rfl, rfl⟩
  | some tn =>
    simp only []
    split
    · exact ⟨rfl, rfl⟩
    · split
      · split
        · exact ⟨rfl, rfl⟩
        · cases env.createTeam _ with
          | error e => exact ⟨rfl, rfl⟩
          | ok newID => exact ⟨rfl, rfl⟩
      · cases env.createTeam _ with
        | error e => exact ⟨rfl, rfl⟩
        | ok newID => exact ⟨rfl, rfl⟩

theorem createUsersInBackendAndCache_preserves (ldapData : List (String × LDAPUser))
    (env : BackendEnv) (users : List String) (backendName backendType : String)
    (st : CacheState) (calls : List Call) :
    (createUsersInBackendAndCache ldapData env users backendName backendType st
      calls).2.1.groupMembers = st.groupMembers ∧
    (createUsersInBackendAndCache ldapData env users backendName backendType st
      calls).2.1.userGroups = st.userGroups := by
  induction users generalizing st calls with
  | nil => exact ⟨rfl, rfl⟩
  | cons u rest ih =>
    unfold createUsersInBackendAndCache
    cases getEntry ldapData u with
    | none => exact ih st calls
    | some ud =>
      simp only []
      split
      · exact ih st calls
      · cases env.createUser _ with
        | error e => exact ⟨rfl, rfl⟩
        | ok newID => exact ih _ _

theorem processSingleBackend_preserves (transform : Transformer) (env : BackendEnv)
    (ldapData : List (String × LDAPUser)) (groupCR : GroupSpec) (backend : Backend)
    (uniqueMembers : List String) (backendGroupParams : TeamParams)
    (st : CacheState) (calls : List Call) :
    (processSingleBackend transform env ldapData groupCR backend uniqueMembers
      backendGroupParams st calls).2.1.groupMembers = st.groupMembers ∧
    (processSingleBackend transform env ldapData groupCR backend uniqueMembers
      backendGroupParams st calls).2.1.userGroups = st.userGroups := by
  unfold processSingleBackend
  cases env.newClient with
  | error e => exact ⟨rfl, rfl⟩
  | ok _ =>
  simp only []
  cases env.ldapSync st with
  | error e => exact ⟨rfl, rfl⟩
  | ok isLdapSync =>
  simp only []
  cases hft : fetchOrCreateTeam transform env groupCR.groupName
      { name := backend.name, type := backend.type, groupParams := backendGroupParams }
      st calls with
  | mk r1 p1 =>
  obtain ⟨st1, c1⟩ := p1
  have h1 := fetchOrCreateTeam_preserves transform env groupCR.groupName
      { name := backend.name, type := backend.type, groupParams := backendGroupParams }
      st calls
  rw [hft] at h1
  cases r1 with
  | error e => exact h1
  | ok teamID =>
  simp only []
  cases hcu : createUsersInBackendAndCache ldapData env uniqueMembers backend.name
      backend.type st1 c1 with
  | mk r2 p2 =>
  obtain ⟨st2, c2⟩ := p2
  have h2 := createUsersInBackendAndCache_preserves ldapData env uniqueMembers
      backend.name backend.type st1 c1
  rw [hcu] at h2
  have h12 : st2.groupMembers = st.groupMembers ∧ st2.userGroups = st.userGroups :=
    ⟨h2.1.trans h1.1, h2.2.trans h1.2⟩
  cases r2 with
  | error e => exact h12
  | ok _ =>
  simp only []
  cases env.fetchTeamMembers teamID with
  | error e => exact h12
  | ok members =>
  simp only []
  cases processUsers ldapData st2 uniqueMembers members backend.name backend.type with
  | error e => exact h12
  | ok p3 =>
  obtain ⟨usersToAdd, usersToRemove⟩ := p3
  simp only []
  by_cases hls : isLdapSync
  · rw [if_pos hls]
    exact h12
  · rw [if_neg hls]
    by_cases hadd : usersToAdd.isEmpty
    · rw [if_pos hadd]
      by_cases hrem : usersToRemove.isEmpty
      · rw [if_pos hrem]
        exact h12
      · rw [if_neg hrem]
        cases env.removeUserFromTeam teamID usersToRemove with
        | error e => exact h12
        | ok _ => exact h12
    · rw [if_neg hadd]
      cases env.addUserToTeam teamID usersToAdd with
      | error e => exact h12
      | ok _ =>
        simp only []
        by_cases hrem : usersToRemove.isEmpty
        · rw [if_pos hrem]
          exact h12
        · rw [if_neg hrem]
          cases env.removeUserFromTeam teamID usersToRemove with
          | error e => exact h12
          | ok _ => exact h12

theorem processBackendsLoop_preserves (transform : Transformer)
    (benv : String → BackendEnv) (ldapData : List (String × LDAPUser))
    (groupCR : GroupSpec) (uniqueMembers : List String)
    (paramsBy : List (String × TeamParams)) (backends : List Backend)
    (errs : List (String × List (String × String))) (st : CacheState)
    (calls : List Call) :
    (processBackendsLoop transform benv ldapData groupCR uniqueMembers paramsBy
      backends errs st calls).2.1.groupMembers = st.groupMembers ∧
    (processBackendsLoop transform benv ldapData groupCR uniqueMembers paramsBy
      backends errs st calls).2.1.userGroups = st.userGroups := by
  induction backends generalizing errs st calls with
  | nil => exact ⟨rfl, rfl⟩
  | cons backend rest ih =>
    unfold processBackendsLoop
    cases hps : processSingleBackend transform (benv (backend.name ++ "_" ++ backend.type))
        ldapData groupCR backend uniqueMembers
        ((getEntry paramsBy (backend.name ++ "_" ++ backend.type)).getD
          { property := "", value := [] }) st calls with
    | mk r p =>
    obtain ⟨st', calls'⟩ := p
    have hp := processSingleBackend_preserves transform
        (benv (backend.name ++ "_" ++ backend.type)) ldapData groupCR backend
        uniqueMembers
        ((getEntry paramsBy (backend.name ++ "_" ++ backend.type)).getD
          { property := "", value := [] }) st calls
    rw [hps] at hp
    cases r with
    | ok _ =>
      simp only []
      have := ih errs st' calls'
      exact ⟨this.1.trans hp.1, this.2.trans hp.2⟩
    | error e =>
      simp only []
      have := ih (addBackendError errs backend.type backend.name e) st' calls'
      exact ⟨this.1.trans hp.1, this.2.trans hp.2⟩

/-- C1: if any declared backend's processing records an error, the
reconcile performs none of the reverse-index or membership writes — the
group-member lists and the whole User→Groups reverse index are equal to
their pre-reconcile values (per-user and per-group backend-id mappings
written during per-backend processing may remain). -/
theorem reconcile_all_or_nothing (transform : Transformer)
    (env : List (String × GroupSpec)) (ldap : LdapOracle)
    (benv : String → BackendEnv) (groupCR : GroupSpec) (st : CacheState)
    (h : anyErrors (reconcile transform env ldap benv groupCR st).backendErrors = true) :
    (reconcile transform env ldap benv groupCR st).state.groupMembers =
      st.groupMembers ∧
    (reconcile transform env ldap benv groupCR st).state.userGroups =
      st.userGroups := by
  unfold reconcile at h ⊢
  cases hconf : isGroupConfigurable transform groupCR with
  | false =>
    simp only [hconf, Bool.not_false, if_pos] at h
    simp [anyErrors] at h
  | true =>
    simp only [hconf, Bool.not_true, Bool.false_eq_true, if_false] at h ⊢
    cases hfetch : fetchUniqueGroupMembers env groupCR.groupName [] with
    | error e =>
      rw [hfetch] at h
      simp [anyErrors] at h
    | ok allMembers =>
      rw [hfetch] at h
      simp only [] at h ⊢
      rw [if_pos h]
      unfold processAllBackends
      exact processBackendsLoop_preserves transform benv
        (fetchLDAPData ldap (deduplicateMembers allMembers)).1 groupCR
        (deduplicateMembers allMembers) (collectGroupParams groupCR).2
        groupCR.backends (collectGroupParams groupCR).1 st []

/-- A backend environment whose client construction fails (C1 witness
fixture). -/
def benvDown : BackendEnv :=
  { newClient := .error "backend down", ldapSync := fun _ => .ok false,
    createTeam := fun _ => .error "unreachable",
    createUser := fun _ => .error "unreachable",
    fetchTeamMembers := fun _ => .error "unreachable",
    addUserToTeam := fun _ _ => .error "unreachable",
    removeUserFromTeam := fun _ _ => .error "unreachable" }

/-- C1 witness fixture: a one-backend group. -/
def groupGw : GroupSpec :=
  { groupName := "gw", users := ["alice"], groups := [],
    backends := [{ name := "ftA", type := "fivetran" }], groupParams := [] }

/-- C1 witness fixture: pre-reconcile state with non-trivial member list
and reverse index. -/
def stGw : CacheState :=
  { userBackends := [], teamBackends := [], groupMembers := [("gw", ["old@x"])],
    groupBackends := [], userGroups := [("old@x", ["gw"])] }

/-- C1 witness: with the single backend failing, the reconcile records a
backend error and leaves the member lists and the reverse index exactly
as they were. -/
theorem reconcile_all_or_nothing_witness :
    anyErrors (reconcile (fun _ _ => some "tn") [("gw", groupGw)] (fun _ => none)
      (fun _ => benvDown) groupGw stGw).backendErrors = true ∧
    ((reconcile (fun _ _ => some "tn") [("gw", groupGw)] (fun _ => none)
        (fun _ => benvDown) groupGw stGw).state.groupMembers = stGw.groupMembers ∧
     (reconcile (fun _ _ => some "tn") [("gw", groupGw)] (fun _ => none)
        (fun _ => benvDown) groupGw stGw).state.userGroups = stGw.userGroups) :=
  ⟨by
    simp [reconcile, isGroupConfigurable, groupGw, fetchUniqueGroupMembers,
      fetchSubGroups, getEntry, deduplicateMembers, fetchLDAPData, fetchLDAPDataGo,
      processAllBackends, processBackendsLoop, processSingleBackend,
      collectGroupParams, addBackendError, anyErrors, setEntry, benvDown],
   reconcile_all_or_nothing (fun _ _ => some "tn") [("gw", groupGw)] (fun _ => none)
     (fun _ => benvDown) groupGw stGw
     (by
       simp [reconcile, isGroupConfigurable, groupGw, fetchUniqueGroupMembers,
         fetchSubGroups, getEntry, deduplicateMembers, fetchLDAPData, fetchLDAPDataGo,
         processAllBackends, processBackendsLoop, processSingleBackend,
         collectGroupParams, addBackendError, anyErrors, setEntry, benvDown])⟩

/-! ### Reverse-index lemmas (C2 machinery) -/

theorem getEntry_cons {β : Type} (p : String × β) (rest : List (String × β))
    (k : String) :
    getEntry (p :: rest) k = if p.1 = k then some p.2 else getEntry rest k := rfl

theorem getEntry_removeEntry_same {β : Type} (m : List (String × β)) (k : String) :
    getEntry (removeEntry m k) k = none := by
  induction m with
  | nil => rfl
  | cons p rest ih =>
    unfold removeEntry at ih ⊢
    rw [List.filter_cons]
    by_cases h : p.1 = k
    · rw [if_neg (by simp [h])]
      exact ih
    · rw [if_pos (by simp [h])]
      rw [getEntry_cons, if_neg h]
      exact ih

theorem getEntry_removeEntry_other {β : Type} (m : List (String × β)) (k k' : String)
    (hne : k' ≠ k) : getEntry (removeEntry m k) k' = getEntry m k' := by
  induction m with
  | nil => rfl
  | cons p rest ih =>
    unfold removeEntry at ih ⊢
    rw [List.filter_cons]
    by_cases h : p.1 = k
    · rw [if_neg (by simp [h])]
      rw [ih, getEntry_cons, if_neg (fun hh => hne (by rw [← hh, h]))]
    · rw [if_pos (by simp [h])]
      rw [getEntry_cons, getEntry_cons]
      by_cases h2 : p.1 = k'
      · rw [if_pos h2, if_pos h2]
      · rw [if_neg h2, if_neg h2]
        exact ih

theorem getUserGroupsOf_set (st : CacheState) (e : String) (l : List String)
    (e' : String) :
    getUserGroupsOf { st with userGroups := setEntry st.userGroups e l } e' =
      if e' = e then l else getUserGroupsOf st e' := by
  unfold getUserGroupsOf
  by_cases h : e' = e
  · subst h
    simp [getEntry_setEntry_same]
  · simp [h, getEntry_setEntry_other _ _ _ _ (fun hh => h hh.symm)]

theorem getUserGroupsOf_addUserGroup (st : CacheState) (e G e' G' : String) :
    G' ∈ getUserGroupsOf (addUserGroup st e G) e' ↔
      (G' ∈ getUserGroupsOf st e' ∨ (e' = e ∧ G' = G)) := by
  unfold addUserGroup
  by_cases hmem : G ∈ getUserGroupsOf st e
  · rw [if_pos hmem]
    constructor
    · exact Or.inl
    · rintro (h | ⟨rfl, rfl⟩)
      · exact h
      · exact hmem
  · rw [if_neg hmem]
    have hset := getUserGroupsOf_set st e (getUserGroupsOf st e ++ [G]) e'
    rw [hset]
    by_cases he : e' = e
    · subst he
      simp [List.mem_append]
    · simp [he]

theorem getUserGroupsOf_removeUserGroup (st : CacheState) (e G e' G' : String) :
    G' ∈ getUserGroupsOf (removeUserGroup st e G) e' ↔
      (G' ∈ getUserGroupsOf st e' ∧ ¬(e' = e ∧ G' = G)) := by
  unfold removeUserGroup
  simp only []
  by_cases hemp : ((getUserGroupsOf st e).filter (fun g => g ≠ G)).isEmpty
  · rw [if_pos hemp]
    have hall : ∀ x ∈ getUserGroupsOf st e, x = G := by
      intro x hx
      by_contra hne
      have : x ∈ (getUserGroupsOf st e).filter (fun g => g ≠ G) :=
        List.mem_filter.mpr ⟨hx, by simpa using hne⟩
      rw [List.isEmpty_iff] at hemp
      rw [hemp] at this
      simp at this
    by_cases he : e' = e
    · subst he
      unfold getUserGroupsOf
      simp only [getEntry_removeEntry_same, Option.getD_none]
      constructor
      · intro h
        simp at h
      · rintro ⟨hmem, hne⟩
        exact absurd ⟨by simp, hall G' hmem⟩ hne
    · unfold getUserGroupsOf
      rw [getEntry_removeEntry_other _ _ _ (fun hh => he hh)]
      constructor
      · intro h
        exact ⟨h, fun hc => he hc.1⟩
      · intro h
        exact h.1
  · rw [if_neg hemp]
    have hset := getUserGroupsOf_set st e
      ((getUserGroupsOf st e).filter (fun g => g ≠ G)) e'
    rw [hset]
    by_cases he : e' = e
    · subst he
      rw [if_pos rfl]
      rw [List.mem_filter]
      simp
    · simp [he]

theorem addUserGroup_groupMembers (st : CacheState) (e G : String) :
    (addUserGroup st e G).groupMembers = st.groupMembers := by
  unfold addUserGroup
  split <;> rfl

theorem removeUserGroup_groupMembers (st : CacheState) (e G : String) :
    (removeUserGroup st e G).groupMembers = st.groupMembers := by
  unfold removeUserGroup
  simp only []
  split <;> rfl

theorem mem_foldl_addUserGroup (current : List String) (st : CacheState)
    (G e G' : String) :
    G' ∈ getUserGroupsOf
        (current.foldl (fun s email => addUserGroup s email G) st) e ↔
      (G' ∈ getUserGroupsOf st e ∨ (e ∈ current ∧ G' = G)) := by
  induction current generalizing st with
  | nil => simp
  | cons c rest ih =>
    simp only [List.foldl_cons]
    rw [ih]
    rw [getUserGroupsOf_addUserGroup]
    simp only [List.mem_cons]
    constructor
    · rintro ((h | ⟨rfl, rfl⟩) | ⟨hr, rfl⟩)
      · exact Or.inl h
      · exact Or.inr ⟨Or.inl rfl, rfl⟩
      · exact Or.inr ⟨Or.inr hr, rfl⟩
    · rintro (h | ⟨(rfl | hr), rfl⟩)
      · exact Or.inl (Or.inl h)
      · exact Or.inl (Or.inr ⟨rfl, rfl⟩)
      · exact Or.inr ⟨hr, rfl⟩

theorem foldl_addUserGroup_groupMembers (current : List String) (st : CacheState)
    (G : String) :
    (current.foldl (fun s email => addUserGroup s email G) st).groupMembers =
      st.groupMembers := by
  induction current generalizing st with
  | nil => rfl
  | cons c rest ih =>
    simp only [List.foldl_cons]
    rw [ih, addUserGroup_groupMembers]

theorem mem_foldl_removeUserGroup (prev : List String) (current : List String)
    (st : CacheState) (G e G' : String) :
    G' ∈ getUserGroupsOf
        (prev.foldl (fun s email =>
          if email ∈ current then s else removeUserGroup s email G) st) e ↔
      (G' ∈ getUserGroupsOf st e ∧ ¬(e ∈ prev ∧ e ∉ current ∧ G' = G)) := by
  induction prev generalizing st with
  | nil => simp
  | cons p rest ih =>
    simp only [List.foldl_cons]
    by_cases hp : p ∈ current
    · rw [if_pos hp]
      rw [ih]
      simp only [List.mem_cons]
      constructor
      · rintro ⟨h, hn⟩
        refine ⟨h, ?_⟩
        rintro ⟨(rfl | hr), hcur, rfl⟩
        · exact hcur hp
        · exact hn ⟨hr, hcur, rfl⟩
      · rintro ⟨h, hn⟩
        refine ⟨h, ?_⟩
        rintro ⟨hr, hcur, rfl⟩
        exact hn ⟨Or.inr hr, hcur, rfl⟩
    · rw [if_neg hp]
      rw [ih]
      rw [getUserGroupsOf_removeUserGroup]
      simp only [List.mem_cons]
      constructor
      · rintro ⟨⟨h, hne⟩, hn⟩
        refine ⟨h, ?_⟩
        rintro ⟨(rfl | hr), hcur, rfl⟩
        · exact hne ⟨rfl, rfl⟩
        · exact hn ⟨hr, hcur, rfl⟩
      · rintro ⟨h, hn⟩
        refine ⟨⟨h, ?_⟩, ?_⟩
        · rintro ⟨rfl, rfl⟩
          exact hn ⟨Or.inl rfl, hp, rfl⟩
        · rintro ⟨hr, hcur, rfl⟩
          exact hn ⟨Or.inr hr, hcur, rfl⟩

theorem foldl_removeUserGroup_groupMembers (prev current : List String)
    (st : CacheState) (G : String) :
    (prev.foldl (fun s email =>
      if email ∈ current then s else removeUserGroup s email G) st).groupMembers =
      st.groupMembers := by
  induction prev generalizing st with
  | nil => rfl
  | cons p rest ih =>
    simp only [List.foldl_cons]
    by_cases hp : p ∈ current
    · rw [if_pos hp, ih]
    · rw [if_neg hp, ih, removeUserGroup_groupMembers]

theorem getGroupMembers_setGroupMembers (st : CacheState) (G : String)
    (l : List String) :
    getGroupMembers (setGroupMembers st G l) G = l := by
  unfold getGroupMembers setGroupMembers
  simp [getEntry_setEntry_same]

/-- After `updateCacheIndexes`, membership in the group's member list and
membership of the group in the reverse index coincide, provided the
pre-state satisfied the index-implies-member direction for this group. -/
theorem updateCacheIndexes_iff (st : CacheState) (G : String)
    (current : List String)
    (hpre : ∀ e, G ∈ getUserGroupsOf st e → e ∈ getGroupMembers st G)
    (e : String) :
    (e ∈ getGroupMembers (updateCacheIndexes st G current) G ↔
     G ∈ getUserGroupsOf (updateCacheIndexes st G current) e) := by
  unfold updateCacheIndexes
  rw [getGroupMembers_setGroupMembers]
  have hug : getUserGroupsOf (setGroupMembers
      ((getGroupMembers st G).foldl
        (fun s email => if email ∈ current then s else removeUserGroup s email G)
        (current.foldl (fun s email => addUserGroup s email G) st)) G current) e =
      getUserGroupsOf
        ((getGroupMembers st G).foldl
          (fun s email => if email ∈ current then s else removeUserGroup s email G)
          (current.foldl (fun s email => addUserGroup s email G) st)) e := rfl
  rw [hug, mem_foldl_removeUserGroup, mem_foldl_addUserGroup]
  constructor
  · intro hcur
    refine ⟨Or.inr ⟨hcur, rfl⟩, ?_⟩
    rintro ⟨_, hncur, _⟩
    exact hncur hcur
  · rintro ⟨hin, hn⟩
    by_contra hncur
    rcases hin with hin | ⟨hcur, _⟩
    · exact hn ⟨hpre e hin, hncur, rfl⟩
    · exact hncur hcur

/-- C2: after a reconcile in which every declared backend succeeded (the
reverse-index update ran), an email is in the group's member list iff the
group is in that email's User→Groups index — provided the pre-reconcile
state satisfied the index-implies-member direction for this group, which
is the system invariant the spec asserts (invariant 3). -/
theorem reconcile_reverse_index (transform : Transformer)
    (env : List (String × GroupSpec)) (ldap : LdapOracle)
    (benv : String → BackendEnv) (groupCR : GroupSpec) (st : CacheState)
    (hpre : ∀ e, groupCR.groupName ∈ getUserGroupsOf st e →
      e ∈ getGroupMembers st groupCR.groupName)
    (hidx : (reconcile transform env ldap benv groupCR st).didIndexUpdate = true)
    (e : String) :
    (e ∈ getGroupMembers (reconcile transform env ldap benv groupCR st).state
        groupCR.groupName ↔
     groupCR.groupName ∈
       getUserGroupsOf (reconcile transform env ldap benv groupCR st).state e) := by
  unfold reconcile at hidx ⊢
  cases hconf : isGroupConfigurable transform groupCR with
  | false =>
    rw [hconf] at hidx
    simp at hidx
  | true =>
    simp only [hconf, Bool.not_true, Bool.false_eq_true, if_false] at hidx ⊢
    cases hfetch : fetchUniqueGroupMembers env groupCR.groupName [] with
    | error er =>
      rw [hfetch] at hidx
      simp at hidx
    | ok allMembers =>
      rw [hfetch] at hidx
      simp only [] at hidx ⊢
      have herr : anyErrors (processAllBackends transform benv
          (fetchLDAPData ldap (deduplicateMembers allMembers)).1 groupCR
          (deduplicateMembers allMembers) st).1 = false := by
        simpa using hidx
      rw [if_neg (by simp [herr])]
      apply updateCacheIndexes_iff
      intro e' hG
      have hpres := processBackendsLoop_preserves transform benv
        (fetchLDAPData ldap (deduplicateMembers allMembers)).1 groupCR
        (deduplicateMembers allMembers) (collectGroupParams groupCR).2
        groupCR.backends (collectGroupParams groupCR).1 st []
      have hug : getUserGroupsOf (processAllBackends transform benv
          (fetchLDAPData ldap (deduplicateMembers allMembers)).1 groupCR
          (deduplicateMembers allMembers) st).2.1 e' = getUserGroupsOf st e' := by
        unfold processAllBackends getUserGroupsOf
        rw [hpres.2]
      have hgm : getGroupMembers (processAllBackends transform benv
          (fetchLDAPData ldap (deduplicateMembers allMembers)).1 groupCR
          (deduplicateMembers allMembers) st).2.1 groupCR.groupName =
          getGroupMembers st groupCR.groupName := by
        unfold processAllBackends getGroupMembers
        rw [hpres.1]
      rw [hgm]
      rw [hug] at hG
      exact hpre e' hG

/-- C2 witness fixture: a backend environment in which every operation
succeeds. -/
def benvOk : BackendEnv :=
  { newClient := .ok (), ldapSync := fun _ => .ok false,
    createTeam := fun _ => .ok "T1",
    createUser := fun _ => .ok "U1",
    fetchTeamMembers := fun _ => .ok [],
    addUserToTeam := fun _ _ => .ok (),
    removeUserFromTeam := fun _ _ => .ok () }

/-- C2 witness fixture: alice resolves in LDAP. -/
def ldapAlice : LdapOracle := fun u =>
  if u = "alice" then
    some { uid := "alice", email := "alice@x", displayName := "Alice", sn := "A" }
  else none

/-- C2 witness fixture: the fresh-onboarding group. -/
def groupG1 : GroupSpec :=
  { groupName := "g1", users := ["alice"], groups := [],
    backends := [{ name := "ftA", type := "fivetran" }], groupParams := [] }

/-- C2 witness fixture: an empty pre-reconcile store. -/
def stEmpty : CacheState :=
  { userBackends := [], teamBackends := [], groupMembers := [],
    groupBackends := [], userGroups := [] }

/-- C2 witness: a fresh onboarding reconcile with every backend call
succeeding updates the index, and membership coincides for alice@x. -/
theorem reconcile_reverse_index_witness :
    (∀ e, "g1" ∈ getUserGroupsOf stEmpty e → e ∈ getGroupMembers stEmpty "g1") ∧
    (reconcile (fun _ _ => some "tn-g1") [("g1", groupG1)] ldapAlice
      (fun _ => benvOk) groupG1 stEmpty).didIndexUpdate = true ∧
    ("alice@x" ∈ getGroupMembers (reconcile (fun _ _ => some "tn-g1")
        [("g1", groupG1)] ldapAlice (fun _ => benvOk) groupG1 stEmpty).state "g1" ↔
     "g1" ∈ getUserGroupsOf (reconcile (fun _ _ => some "tn-g1")
        [("g1", groupG1)] ldapAlice (fun _ => benvOk) groupG1 stEmpty).state
        "alice@x") :=
  ⟨fun e h => by simp [getUserGroupsOf, getEntry, stEmpty] at h,
   by
     simp [reconcile, isGroupConfigurable, groupG1, fetchUniqueGroupMembers,
       fetchSubGroups, getEntry, deduplicateMembers, fetchLDAPData, fetchLDAPDataGo,
       processAllBackends, processBackendsLoop, processSingleBackend,
       collectGroupParams, addBackendError, anyErrors, setEntry, benvOk, ldapAlice,
       fetchOrCreateTeam, createUsersInBackendAndCache, processUsers,
       processUsersLoop, getGroupBackendID, getTeamBackends, getUserBackends,
       setGroupBackend, setUserBackend, stEmpty],
   reconcile_reverse_index (fun _ _ => some "tn-g1") [("g1", groupG1)] ldapAlice
     (fun _ => benvOk) groupG1 stEmpty
     (fun e h => by simp [getUserGroupsOf, getEntry, stEmpty] at h)
     (by
       simp [reconcile, isGroupConfigurable, groupG1, fetchUniqueGroupMembers,
         fetchSubGroups, getEntry, deduplicateMembers, fetchLDAPData, fetchLDAPDataGo,
         processAllBackends, processBackendsLoop, processSingleBackend,
         collectGroupParams, addBackendError, anyErrors, setEntry, benvOk, ldapAlice,
         fetchOrCreateTeam, createUsersInBackendAndCache, processUsers,
         processUsersLoop, getGroupBackendID, getTeamBackends, getUserBackends,
         setGroupBackend, setUserBackend, stEmpty])
     "alice@x"⟩

/-! ### Reachability semantics of the member expansion (C3) -/

/-- `ReachesAvoiding env visited g target`: starting at `g`, there is a
walk along `members.groups` edges reaching `target` that visits only
groups present in `env`, never revisits a group on the walk itself, and
never touches a group in `visited` (the current recursion path). -/
inductive ReachesAvoiding (env : List (String × GroupSpec)) :
    List String → String → String → Prop where
  | here : ∀ visited g spec, g ∉ visited → getEntry env g = some spec →
      ReachesAvoiding env visited g g
  | step : ∀ visited g spec nxt target, g ∉ visited → getEntry env g = some spec →
      nxt ∈ spec.groups → ReachesAvoiding env (g :: visited) nxt target →
      ReachesAvoiding env visited g target

theorem fetchUniqueGroupMembers_ok_inv (env : List (String × GroupSpec))
    (g : String) (visited : List String) (l : List String)
    (hnv : g ∉ visited) (h : fetchUniqueGroupMembers env g visited = .ok l) :
    ∃ spec sub, getEntry env g = some spec ∧
      fetchSubGroups env spec.groups (g :: visited) = .ok sub ∧
      l = spec.users ++ sub := by
  unfold fetchUniqueGroupMembers at h
  rw [dif_neg hnv] at h
  split at h
  · simp at h
  · rename_i spec hlk
    split at h
    · simp at h
    · rename_i sub hsub
      refine ⟨spec, sub, hlk, hsub, ?_⟩
      injection h with h1
      exact h1.symm

theorem fetchSubGroups_sub (env : List (String × GroupSpec)) (subs : List String)
    (visited : List String) (l : List String)
    (h : fetchSubGroups env subs visited = .ok l) :
    ∀ nxt ∈ subs, ∃ m, fetchUniqueGroupMembers env nxt visited = .ok m ∧
      ∀ u ∈ m, u ∈ l := by
  induction subs generalizing l with
  | nil =>
    intro nxt hn
    simp at hn
  | cons s rest ih =>
    intro nxt hn
    unfold fetchSubGroups at h
    split at h
    · simp at h
    · rename_i ms hms
      split at h
      · simp at h
      · rename_i others hothers
        have hl : l = ms ++ others := by
          injection h with h1
          exact h1.symm
        subst hl
        rcases List.mem_cons.mp hn with rfl | hrest
        · exact ⟨ms, hms, fun u hu => List.mem_append_left _ hu⟩
        · obtain ⟨m, hm, hsub⟩ := ih others hothers nxt hrest
          exact ⟨m, hm, fun u hu => List.mem_append_right _ (hsub u hu)⟩

theorem fetchSubGroups_mem_src (env : List (String × GroupSpec)) (subs : List String)
    (visited : List String) (l : List String) (u : String)
    (h : fetchSubGroups env subs visited = .ok l) (hu : u ∈ l) :
    ∃ nxt, nxt ∈ subs ∧ ∃ m, fetchUniqueGroupMembers env nxt visited = .ok m ∧
      u ∈ m := by
  induction subs generalizing l with
  | nil =>
    unfold fetchSubGroups at h
    injection h with h1
    rw [← h1] at hu
    simp at hu
  | cons s rest ih =>
    unfold fetchSubGroups at h
    split at h
    · simp at h
    · rename_i ms hms
      split at h
      · simp at h
      · rename_i others hothers
        have hl : l = ms ++ others := by
          injection h with h1
          exact h1.symm
        subst hl
        rcases List.mem_append.mp hu with hu1 | hu2
        · exact ⟨s, List.mem_cons_self _ _, ms, hms, hu1⟩
        · obtain ⟨nxt, hn, m, hm, hum⟩ := ih others hothers hu2
          exact ⟨nxt, List.mem_cons_of_mem _ hn, m, hm, hum⟩

theorem fetchUniqueGroupMembers_complete (env : List (String × GroupSpec))
    {visited : List String} {g target : String}
    (hr : ReachesAvoiding env visited g target) :
    ∀ spec', getEntry env target = some spec' → ∀ u ∈ spec'.users,
    ∀ l, fetchUniqueGroupMembers env g visited = .ok l → u ∈ l := by
  induction hr with
  | here visited g spec hnv hlook =>
    intro spec' hlook' u hu l hok
    obtain ⟨spec2, sub, hlk2, _, rfl⟩ :=
      fetchUniqueGroupMembers_ok_inv env g visited l hnv hok
    have hs : spec2 = spec' := by
      rw [hlk2] at hlook'
      injection hlook'
    subst hs
    exact List.mem_append_left _ hu
  | step visited g spec nxt target hnv hlook hmem hrec ih =>
    intro spec' hlook' u hu l hok
    obtain ⟨spec2, sub, hlk2, hsub, rfl⟩ :=
      fetchUniqueGroupMembers_ok_inv env g visited l hnv hok
    have hs : spec2 = spec := by
      rw [hlook] at hlk2
      injection hlk2 with h2
      exact h2.symm
    rw [hs] at hsub
    obtain ⟨m, hm, hsubm⟩ :=
      fetchSubGroups_sub env spec.groups (g :: visited) sub hsub nxt hmem
    exact List.mem_append_right _ (hsubm u (ih spec' hlook' u hu m hm))

theorem fetchUniqueGroupMembers_sound (env : List (String × GroupSpec)) :
    ∀ n (visited : List String), unvisitedCount env visited ≤ n →
    ∀ g l, fetchUniqueGroupMembers env g visited = .ok l →
    ∀ u ∈ l, ∃ target spec, ReachesAvoiding env visited g target ∧
      getEntry env target = some spec ∧ u ∈ spec.users := by
  intro n
  induction n with
  | zero =>
    intro visited hcnt g l hok u hu
    by_cases hnv : g ∈ visited
    · unfold fetchUniqueGroupMembers at hok
      rw [dif_pos hnv] at hok
      injection hok with h1
      rw [← h1] at hu
      simp at hu
    · obtain ⟨spec, sub, hlk, _, _⟩ :=
        fetchUniqueGroupMembers_ok_inv env g visited l hnv hok
      have := unvisitedCount_cons_lt env g visited (by simp [hlk]) hnv
      omega
  | succ n ih =>
    intro visited hcnt g l hok u hu
    by_cases hnv : g ∈ visited
    · unfold fetchUniqueGroupMembers at hok
      rw [dif_pos hnv] at hok
      injection hok with h1
      rw [← h1] at hu
      simp at hu
    · obtain ⟨spec, sub, hlk, hsub, rfl⟩ :=
        fetchUniqueGroupMembers_ok_inv env g visited l hnv hok
      rcases List.mem_append.mp hu with hu1 | hu2
      · exact ⟨g, spec, ReachesAvoiding.here visited g spec hnv hlk, hlk, hu1⟩
      · obtain ⟨nxt, hnmem, m, hm, hum⟩ :=
          fetchSubGroups_mem_src env spec.groups (g :: visited) sub u hsub hu2
        have hcnt' : unvisitedCount env (g :: visited) ≤ n := by
          have := unvisitedCount_cons_lt env g visited (by simp [hlk]) hnv
          omega
        obtain ⟨target, spec', hrt, hlk', hu'⟩ := ih (g :: visited) hcnt' nxt m hm u hum
        exact ⟨target, spec',
          ReachesAvoiding.step visited g spec nxt target hnv hlk hnmem hrt, hlk', hu'⟩

/-- C3: `fetchUniqueGroupMembers` terminates on every finite group graph
(it is a total function, proved terminating by the strictly shrinking set
of groups off the current path), a group already on the current path
contributes an empty member list, and on success the returned members are
exactly the `members.users` of the groups reachable from the root without
revisiting a group on the current traversal path — so a diamond (two
branches meeting) is traversed normally while a cycle is cut. -/
theorem fetchUniqueGroupMembers_spec (env : List (String × GroupSpec))
    (g : String) (visited : List String) (l : List String)
    (hok : fetchUniqueGroupMembers env g visited = .ok l) :
    (g ∈ visited → l = []) ∧
    (∀ u, u ∈ l ↔ ∃ target spec, ReachesAvoiding env visited g target ∧
        getEntry env target = some spec ∧ u ∈ spec.users) := by
  constructor
  · intro hv
    unfold fetchUniqueGroupMembers at hok
    rw [dif_pos hv] at hok
    injection hok with h1
    exact h1.symm
  · intro u
    constructor
    · intro hu
      exact fetchUniqueGroupMembers_sound env (unvisitedCount env visited) visited
        le_rfl g l hok u hu
    · rintro ⟨target, spec, hrt, hlk, hu⟩
      exact fetchUniqueGroupMembers_complete env hrt spec hlk u hu l hok

/-- C3 witness fixture: the two-node cycle g1 ↔ g2 of spec boundary
scenario 2. -/
def envCycle : List (String × GroupSpec) :=
  [("g1", { groupName := "g1", users := ["alice"], groups := ["g2"],
            backends := [], groupParams := [] }),
   ("g2", { groupName := "g2", users := ["bob"], groups := ["g1"],
            backends := [], groupParams := [] })]

/-- C3 witness: expanding g1 over the cyclic graph terminates with
members alice and bob, and bob is justified by reaching g2. -/
theorem fetchUniqueGroupMembers_spec_witness :
    fetchUniqueGroupMembers envCycle "g1" [] = .ok ["alice", "bob"] ∧
    ("bob" ∈ (["alice", "bob"] : List String) ↔
      ∃ target spec, ReachesAvoiding envCycle [] "g1" target ∧
        getEntry envCycle target = some spec ∧ "bob" ∈ spec.users) :=
  ⟨by
    simp [fetchUniqueGroupMembers, fetchSubGroups, getEntry, envCycle],
   (fetchUniqueGroupMembers_spec envCycle "g1" [] ["alice", "bob"]
     (by
       simp [fetchUniqueGroupMembers, fetchSubGroups, getEntry, envCycle])).2 "bob"⟩

end Usernaut
